import Mathlib

/-!
Verification development for an ARM/Thumb instruction-set simulator with a
multi-level cache hierarchy (sources: `cache.py`, `decoder.py`,
`cpu_simulator.py`).  The Python code is shallowly embedded: Python's
unbounded integers become `Nat`/`Int`, bytearrays become `List Nat`,
`None`-able fields become `Option`, and operations that can raise
`IndexError` return `Option` (`none` = the exception).  Python bitwise
operators on possibly-negative integers are embedded through explicit
two's-complement functions (`pyAnd`, `pyOr`, `pyXor`, `pyNot`, `pyShl`).
-/

/-! ## Python integer primitives (two's-complement semantics of `&`, `|`, `^`, `~`, `<<`, `>>`)

A negative Python int `-(n+1)` (`Int.negSucc n`) behaves bitwise as the
complement of `n`.  Each case below is the standard two's-complement
identity, e.g. `a & ~b = a - (a &&& b)` (clearing from `a` the bits of `b`,
which are a sub-mask of `a &&& b`-free bits), `~a & ~b = ~(a ||| b)`. -/

def pyNot (x : Int) : Int := -(x + 1)

def pyAnd : Int → Int → Int
  | Int.ofNat a, Int.ofNat b => Int.ofNat (a &&& b)
  | Int.ofNat a, Int.negSucc b => Int.ofNat (a - (a &&& b))
  | Int.negSucc a, Int.ofNat b => Int.ofNat (b - (a &&& b))
  | Int.negSucc a, Int.negSucc b => Int.negSucc (a ||| b)

def pyOr : Int → Int → Int
  | Int.ofNat a, Int.ofNat b => Int.ofNat (a ||| b)
  | Int.ofNat a, Int.negSucc b => Int.negSucc (b - (a &&& b))
  | Int.negSucc a, Int.ofNat b => Int.negSucc (a - (a &&& b))
  | Int.negSucc a, Int.negSucc b => Int.negSucc (a &&& b)

def pyXor : Int → Int → Int
  | Int.ofNat a, Int.ofNat b => Int.ofNat (a ^^^ b)
  | Int.ofNat a, Int.negSucc b => Int.negSucc (a ^^^ b)
  | Int.negSucc a, Int.ofNat b => Int.negSucc (a ^^^ b)
  | Int.negSucc a, Int.negSucc b => Int.ofNat (a ^^^ b)

/-- Python `x << k` (arithmetic shift, valid for both signs). -/
def pyShl (x : Int) (k : Nat) : Int := x * 2 ^ k

/-- Python `x >> k` (arithmetic right shift = floor division). -/
def pyShr (x : Int) (k : Nat) : Int := Int.fdiv x (2 ^ k)

/-- `int(math.log2 n)`: the floor of the base-2 logarithm, computed with
structural fuel so that it reduces in the kernel.  (`math.log2 0` raises in
Python; the sources guard the only call that could receive 0, and we return
0 there, an unreachable difference.) -/
def log2fuel : Nat → Nat → Nat
  | 0, _ => 0
  | fuel + 1, n => if 2 ≤ n then log2fuel fuel (n / 2) + 1 else 0

def floorLog2 (n : Nat) : Nat := log2fuel n n

/-! ## Main memory (`MainMemory` in `cpu_simulator.py`, `MockMemory` in `test_cache.py`)

A flat byte store.  `read` is a Python slice (clamping at the end);
`write` is bytearray slice assignment `mem[a : a + len(data)] = data`,
which splices `data` in at `a` (appending at the end if `a` is past it).
A negative write address would use Python's from-the-end indexing; it is
unreachable here (write-back addresses of valid lines are nonnegative), so
we leave memory unchanged in that case. -/

def memRead (m : List Nat) (address size : Nat) : List Nat :=
  (m.drop address).take size

def memWrite (m : List Nat) (address : Int) (data : List Nat) : List Nat :=
  if address < 0 then m
  else m.take address.toNat ++ data ++ m.drop (address.toNat + data.length)

/-! ## The cache data model (`cache.py`) -/

/-- `CacheLine.__init__`: `valid=False`, `dirty=False`, `tag=-1`,
`data=bytearray(block_size)`, `lru_counter=0`. -/
structure CacheLine where
  valid : Bool
  dirty : Bool
  tag : Int
  data : List Nat
  lru_counter : Nat
deriving Repr, DecidableEq

def CacheLine.init (block_size : Nat) : CacheLine :=
  { valid := false, dirty := false, tag := -1
    data := List.replicate block_size 0, lru_counter := 0 }

/-- The fields of `Cache.__init__` that are plain data.  Python keeps the
`lower_level` object as a field; here the lower level is passed to each
operation as the current main-memory contents (`List Nat`), and the cache
operations return the updated memory, so that write-backs are observable.
`tag_bits` is an `Int` because `32 - index_bits - offset_bits` can be
negative in Python. -/
structure Cache where
  name : String
  size : Nat
  block_size : Nat
  mapping_type : String
  num_lines : Nat
  offset_bits : Nat
  index_bits : Nat
  tag_bits : Int
  lines : List CacheLine
  hits : Nat
  misses : Nat
  write_backs : Nat
deriving Repr, DecidableEq

/-- `Cache.__init__` from the byte capacity onwards (`self.size = size_kb *
1024`; `size_kb` may be fractional in the callers, e.g. `test_cache.py`
passes `64 / 1024`, so any byte capacity is reachable). -/
def Cache.initBytes (name : String) (sizeBytes block_size_bytes : Nat)
    (mapping_type : String) : Cache :=
  let num_lines := sizeBytes / block_size_bytes
  let offset_bits := floorLog2 block_size_bytes
  let index_bits :=
    if mapping_type = "direct" then
      -- Ensure num_lines is not zero to avoid math domain error
      if num_lines > 0 then floorLog2 num_lines else 0
    else 0
  let tag_bits : Int :=
    if mapping_type = "direct" then 32 - index_bits - offset_bits
    else 32 - offset_bits
  { name := name, size := sizeBytes, block_size := block_size_bytes
    mapping_type := mapping_type, num_lines := num_lines
    offset_bits := offset_bits, index_bits := index_bits, tag_bits := tag_bits
    lines := List.replicate num_lines (CacheLine.init block_size_bytes)
    hits := 0, misses := 0, write_backs := 0 }

/-- `Cache.__init__` with an integral `size_kb`. -/
def Cache.init (name : String) (size_kb block_size_bytes : Nat)
    (mapping_type : String) : Cache :=
  Cache.initBytes name (size_kb * 1024) block_size_bytes mapping_type

/-- `Cache._get_address_parts`: decompose an address into
`(tag, index, offset)`. -/
def Cache.getAddressParts (c : Cache) (address : Nat) : Nat × Nat × Nat :=
  let offset := address &&& ((1 <<< c.offset_bits) - 1)
  if c.mapping_type = "direct" then
    (address >>> (c.offset_bits + c.index_bits),
     (address >>> c.offset_bits) &&& ((1 <<< c.index_bits) - 1), offset)
  else
    (address >>> c.offset_bits, 0, offset)

/-- The linear scan of `Cache._find_line` in the fully-associative case:
first line (with its index) that is valid and has the wanted tag. -/
def findAssoc : List CacheLine → Int → Option (Nat × CacheLine)
  | [], _ => none
  | l :: rest, t =>
    if l.valid && (l.tag == t) then some (0, l)
    else (findAssoc rest t).map (fun p => (p.1 + 1, p.2))

/-- `Cache._find_line`.  Outer `none` models the `IndexError` that
`self.lines[index]` raises on a direct-mapped cache whose line list is too
short; inner `none` is Python's explicit `(-1, None)` "not found" result. -/
def Cache.findLine (c : Cache) (tag : Nat) (index : Nat) :
    Option (Option (Nat × CacheLine)) :=
  if c.mapping_type = "direct" then
    match c.lines[index]? with
    | some l => some (some (index, l))
    | none => none
  else
    some (findAssoc c.lines (Int.ofNat tag))

/-- First-phase scan of `Cache._find_lru_line`: index of the first invalid
line, if any. -/
def findFirstInvalid : List CacheLine → Option Nat
  | [] => none
  | l :: rest =>
    if l.valid then (findFirstInvalid rest).map (fun i => i + 1) else some 0

/-- Second-phase scan of `Cache._find_lru_line`: running first-strict-max of
the `lru_counter`s, started at `(oldest_line_index, max_lru_counter) =
(0, -1)`.  `i` is the absolute index of the head of the remaining list. -/
def argmaxLru : List CacheLine → Nat → Nat → Int → Nat
  | [], _, best, _ => best
  | l :: rest, i, best, bestVal =>
    if bestVal < (l.lru_counter : Int) then argmaxLru rest (i + 1) i l.lru_counter
    else argmaxLru rest (i + 1) best bestVal

/-- `Cache._find_lru_line`. -/
def findLruLine (lines : List CacheLine) : Nat :=
  match findFirstInvalid lines with
  | some i => i
  | none => argmaxLru lines 0 0 (-1)

/-- `Cache._update_lru`: every valid line gets its counter zeroed (if it is
the accessed line) or incremented; invalid lines are untouched.  `i` is the
absolute index of the head. -/
def updateLruAux : List CacheLine → Nat → Nat → List CacheLine
  | [], _, _ => []
  | l :: rest, i, accessed =>
    (if l.valid then
      (if i = accessed then { l with lru_counter := 0 }
       else { l with lru_counter := l.lru_counter + 1 })
     else l) :: updateLruAux rest (i + 1) accessed

def updateLru (lines : List CacheLine) (accessed : Nat) : List CacheLine :=
  updateLruAux lines 0 accessed

/-- `Cache._handle_miss`.  Returns the victim's slot, the updated cache and
the updated lower-level memory; `none` is the `IndexError` raised by
`self.lines[victim_line_index]` when the line list is empty.  The dirty
write-back is issued to the lower level *before* the new block is fetched,
exactly as in the source. -/
def Cache.handleMiss (c : Cache) (mem : List Nat) (address tag index : Nat) :
    Option (Nat × Cache × List Nat) :=
  let victim := if c.mapping_type = "fully-assoc" then findLruLine c.lines else index
  match c.lines[victim]? with
  | none => none
  | some vline =>
    let wb := vline.valid && vline.dirty
    let old_address : Int :=
      pyOr (pyShl vline.tag (c.offset_bits + c.index_bits))
        (Int.ofNat (victim <<< c.offset_bits))
    let mem1 := if wb then memWrite mem old_address vline.data else mem
    -- block_start_address = address & ~(block_size - 1); for a nonnegative
    -- address this clears the bits of the mask:
    let block_start := address - (address &&& (c.block_size - 1))
    let newLine : CacheLine :=
      { valid := true, dirty := false, tag := Int.ofNat tag
        data := memRead mem1 block_start c.block_size
        lru_counter := vline.lru_counter }
    let lines1 := c.lines.set victim newLine
    let lines2 := if c.mapping_type = "fully-assoc" then updateLru lines1 victim else lines1
    some (victim,
      { c with lines := lines2
               write_backs := c.write_backs + (if wb then 1 else 0) }, mem1)

/-- The shared miss path of `Cache.read` (`self.misses += 1` followed by
`self._handle_miss(...)` and the final 4-byte slice). -/
def Cache.readMiss (c : Cache) (mem : List Nat) (address tag index offset : Nat) :
    Option (List Nat × Cache × List Nat) :=
  let c1 := { c with misses := c.misses + 1 }
  match c1.handleMiss mem address tag index with
  | none => none
  | some (li, c2, mem2) =>
    match c2.lines[li]? with
    | some l => some ((l.data.drop offset).take 4, c2, mem2)
    | none => none

/-- `Cache.read`: returns the 4 bytes at `offset` in the resolved line,
the updated cache, and the (possibly written-back-into) lower level. -/
def Cache.read (c : Cache) (mem : List Nat) (address : Nat) :
    Option (List Nat × Cache × List Nat) :=
  let parts := c.getAddressParts address
  let tag := parts.1
  let index := parts.2.1
  let offset := parts.2.2
  match c.findLine tag index with
  | none => none
  | some (some (i, l)) =>
    if l.valid && (l.tag == Int.ofNat tag) then
      let c1 := { c with hits := c.hits + 1 }
      let c2 :=
        if c.mapping_type = "fully-assoc" then { c1 with lines := updateLru c1.lines i }
        else c1
      match c2.lines[i]? with
      | some l2 => some ((l2.data.drop offset).take 4, c2, mem)
      | none => none
    else c.readMiss mem address tag index offset
  | some none => c.readMiss mem address tag index offset

/-- The elementwise store loop of `Cache.write`
(`line.data[offset + i] = data_word[i]`); `none` models the `IndexError`
when a byte would land past the end of the block. -/
def setBytes : List Nat → Nat → List Nat → Option (List Nat)
  | data, _, [] => some data
  | data, offset, b :: rest =>
    if offset < data.length then setBytes (data.set offset b) (offset + 1) rest
    else none

/-- The tail of `Cache.write` after the hit/miss resolution: re-fetch the
line at `line_index`, store the word, set `dirty`. -/
def Cache.writeFinish (c : Cache) (mem : List Nat) (li offset : Nat)
    (data_word : List Nat) : Option (Cache × List Nat) :=
  match c.lines[li]? with
  | none => none
  | some line =>
    match setBytes line.data offset data_word with
    | none => none
    | some d =>
      some ({ c with lines := c.lines.set li { line with data := d, dirty := true } },
        mem)

/-- The miss path of `Cache.write`. -/
def Cache.writeMiss (c : Cache) (mem : List Nat) (address tag index offset : Nat)
    (data_word : List Nat) : Option (Cache × List Nat) :=
  let c1 := { c with misses := c.misses + 1 }
  match c1.handleMiss mem address tag index with
  | none => none
  | some (li, c2, mem2) => c2.writeFinish mem2 li offset data_word

/-- `Cache.write`. -/
def Cache.write (c : Cache) (mem : List Nat) (address : Nat)
    (data_word : List Nat) : Option (Cache × List Nat) :=
  let parts := c.getAddressParts address
  let tag := parts.1
  let index := parts.2.1
  let offset := parts.2.2
  match c.findLine tag index with
  | none => none
  | some (some (i, l)) =>
    if l.valid && (l.tag == Int.ofNat tag) then
      let c1 := { c with hits := c.hits + 1 }
      let c2 :=
        if c.mapping_type = "fully-assoc" then { c1 with lines := updateLru c1.lines i }
        else c1
      c2.writeFinish mem i offset data_word
    else c.writeMiss mem address tag index offset data_word
  | some none => c.writeMiss mem address tag index offset data_word

/-! ## Decoder (`decoder.py`) -/

/-- `DecodedInstruction`: the contract between decoder and executor.
`imm` is an `Option Int` (Python's `None` / arbitrary int). -/
structure DecodedInstruction where
  machine_code : Nat
  is_thumb : Bool
  op_type : String
  op_code : String
  cond : Nat
  rn : Option Nat
  rd : Option Nat
  rm : Option Nat
  imm : Option Int
deriving Repr, DecidableEq

/-- `DecodedInstruction.__init__`. -/
def DecodedInstruction.init (machine_code : Nat) (is_thumb : Bool) :
    DecodedInstruction :=
  { machine_code := machine_code, is_thumb := is_thumb
    op_type := "UNKNOWN", op_code := "UNK"
    cond := if is_thumb then 0b1110 else machine_code >>> 28
    rn := none, rd := none, rm := none, imm := none }

/-- The `op_map` lookup of the DP-immediate group in `decode_arm`. -/
def dpImmOpMap (opcode : Nat) : Option String :=
  if opcode = 0b0100 then some ("ADD")
  else if opcode = 0b0010 then some ("SUB")
  else if opcode = 0b1101 then some ("MOV")
  else if opcode = 0b0000 then some ("AND")
  else if opcode = 0b1100 then some ("ORR")
  else if opcode = 0b1011 then some ("CMN")
  else if opcode = 0b1001 then some ("TST")
  else if opcode = 0b1010 then some ("CMP")
  else none

/-- `decode_arm`. -/
def decode_arm (machine_code : Nat) : DecodedInstruction :=
  let inst := DecodedInstruction.init machine_code false
  if (machine_code >>> 25) &&& 0b111 = 0b001 then
    -- Data Processing (Immediate)
    let opcode := (machine_code >>> 21) &&& 0xF
    { inst with op_type := "DP_IMM"
                rn := some ((machine_code >>> 16) &&& 0xF)
                rd := some ((machine_code >>> 12) &&& 0xF)
                imm := some (Int.ofNat (machine_code &&& 0xFFF))
                op_code := (dpImmOpMap opcode).getD inst.op_code }
  else if (machine_code >>> 25) &&& 0b111 = 0b000 then
    -- Data Processing (Register); only opcode 0b0100 (ADD) is mapped
    let opcode := (machine_code >>> 21) &&& 0xF
    { inst with op_type := "DP_REG"
                rn := some ((machine_code >>> 16) &&& 0xF)
                rd := some ((machine_code >>> 12) &&& 0xF)
                rm := some (machine_code &&& 0xF)
                op_code := if opcode = 0b0100 then "ADD" else inst.op_code }
  else if (machine_code >>> 25) &&& 0b110 = 0b010 then
    -- Load/Store (Immediate)
    { inst with op_type := "LOAD_STORE"
                rn := some ((machine_code >>> 16) &&& 0xF)
                rd := some ((machine_code >>> 12) &&& 0xF)
                imm := some (Int.ofNat (machine_code &&& 0xFFF))
                op_code := if (machine_code >>> 20) &&& 1 ≠ 0 then "LDR" else "STR" }
  else if (machine_code >>> 25) &&& 0b111 = 0b101 then
    -- Branch: `inst.imm |= 0xFF000000` when bit 23 is set ("Sign extend")
    let imm0 := machine_code &&& 0x00FFFFFF
    let imm1 := if (imm0 >>> 23) &&& 1 ≠ 0 then imm0 ||| 0xFF000000 else imm0
    { inst with op_type := "BRANCH"
                imm := some (Int.ofNat imm1)
                op_code := if (machine_code >>> 24) &&& 1 ≠ 0 then "BL" else "B" }
  else inst

/-- `decode_thumb`. -/
def decode_thumb (machine_code : Nat) : DecodedInstruction :=
  let inst := DecodedInstruction.init machine_code true
  if machine_code >>> 11 = 0b00011 then
    { inst with op_type := "DP_REG"
                rn := some ((machine_code >>> 3) &&& 0x7)
                rd := some (machine_code &&& 0x7)
                op_code := if (machine_code >>> 9) &&& 1 ≠ 0 then "SUB" else "ADD" }
  else if machine_code >>> 13 = 0b001 then
    let opcode := (machine_code >>> 11) &&& 0x3
    { inst with op_type := "DP_IMM"
                rd := some ((machine_code >>> 8) &&& 0x7)
                imm := some (Int.ofNat (machine_code &&& 0xFF))
                op_code :=
                  if opcode = 0 then "MOV" else if opcode = 1 then "CMP"
                  else if opcode = 2 then "ADD" else "SUB" }
  else inst

/-! ## CPU executor (`cpu_simulator.py`), flat-memory configuration
(`mem_hier is None`; the hierarchy-aware path routes loads/stores through
the `Cache` model above and shares all register/flag logic). -/

structure Flags where
  n : Nat
  z : Nat
  c : Nat
  v : Nat
deriving Repr, DecidableEq

structure CPU where
  regs : List Int
  flags : Flags
  cpu_is_thumb : Bool
  memory : List Nat
deriving Repr, DecidableEq

def CPU.init : CPU :=
  { regs := List.replicate 16 0
    flags := { n := 0, z := 0, c := 0, v := 0 }
    cpu_is_thumb := false
    memory := List.replicate 1024 0 }

/-- Python `self.regs[r]`.  Registers and instruction fields are always in
range in the sources (16 registers, 4-bit register fields); out-of-range or
`None` indices, on which Python would raise, default to register 0 / value 0
here and are never exercised by the claims. -/
def CPU.reg (cpu : CPU) (r : Option Nat) : Int := cpu.regs.getD (r.getD 0) 0

def CPU.setRegRaw (cpu : CPU) (r : Option Nat) (v : Int) : CPU :=
  { cpu with regs := cpu.regs.set (r.getD 0) v }

/-- The `pc` property getter (`self.regs[15]`). -/
def CPU.pc (cpu : CPU) : Int := cpu.regs.getD 15 0

/-- Python `value & 0xFFFFFFFF`. -/
def mask32 (x : Int) : Int := pyAnd x (Int.ofNat 0xFFFFFFFF)

/-- The `pc` property setter (`self.regs[15] = value & 0xFFFFFFFF`). -/
def CPU.setPc (cpu : CPU) (v : Int) : CPU :=
  { cpu with regs := cpu.regs.set 15 (mask32 v) }

/-- `CPU._set_nz_flags`: `N = (result >> 31) & 1`, `Z = int(result == 0)`,
computed on the *unmasked* result.  C and V are never assigned. -/
def CPU.setNzFlags (cpu : CPU) (result : Int) : CPU :=
  { cpu with flags :=
      { cpu.flags with n := (pyAnd (pyShr result 31) 1).toNat
                       z := if result = 0 then 1 else 0 } }

/-- `operand2`: the immediate when present, else the value of `rm`. -/
def CPU.op2 (cpu : CPU) (inst : DecodedInstruction) : Int :=
  match inst.imm with
  | some i => i
  | none => cpu.reg inst.rm

def CPU.exec_add (cpu : CPU) (inst : DecodedInstruction) : CPU :=
  let result := cpu.reg inst.rn + cpu.op2 inst
  (cpu.setRegRaw inst.rd (mask32 result)).setNzFlags result

def CPU.exec_sub (cpu : CPU) (inst : DecodedInstruction) : CPU :=
  let result := cpu.reg inst.rn - cpu.op2 inst
  (cpu.setRegRaw inst.rd (mask32 result)).setNzFlags result

def CPU.exec_mov (cpu : CPU) (inst : DecodedInstruction) : CPU :=
  let value := cpu.op2 inst
  (cpu.setRegRaw inst.rd (mask32 value)).setNzFlags value

/-- `exec_and` stores the result *unmasked* (the source omits the
`& 0xFFFFFFFF` here, as it does for EOR and ORR). -/
def CPU.exec_and (cpu : CPU) (inst : DecodedInstruction) : CPU :=
  let result := pyAnd (cpu.reg inst.rn) (cpu.op2 inst)
  (cpu.setRegRaw inst.rd result).setNzFlags result

def CPU.exec_eor (cpu : CPU) (inst : DecodedInstruction) : CPU :=
  let result := pyXor (cpu.reg inst.rn) (cpu.reg inst.rm)
  (cpu.setRegRaw inst.rd result).setNzFlags result

def CPU.exec_orr (cpu : CPU) (inst : DecodedInstruction) : CPU :=
  let result := pyOr (cpu.reg inst.rn) (cpu.op2 inst)
  (cpu.setRegRaw inst.rd result).setNzFlags result

def CPU.exec_rsb (cpu : CPU) (inst : DecodedInstruction) : CPU :=
  let result := cpu.op2 inst - cpu.reg inst.rn
  (cpu.setRegRaw inst.rd (mask32 result)).setNzFlags result

def CPU.exec_adc (cpu : CPU) (inst : DecodedInstruction) : CPU :=
  let result := cpu.reg inst.rn + cpu.op2 inst + Int.ofNat cpu.flags.c
  (cpu.setRegRaw inst.rd (mask32 result)).setNzFlags result

def CPU.exec_sbc (cpu : CPU) (inst : DecodedInstruction) : CPU :=
  let result := cpu.reg inst.rn - cpu.op2 inst + Int.ofNat cpu.flags.c - 1
  (cpu.setRegRaw inst.rd (mask32 result)).setNzFlags result

def CPU.exec_rsc (cpu : CPU) (inst : DecodedInstruction) : CPU :=
  let result := cpu.op2 inst - cpu.reg inst.rn + Int.ofNat cpu.flags.c - 1
  (cpu.setRegRaw inst.rd (mask32 result)).setNzFlags result

def CPU.exec_tst (cpu : CPU) (inst : DecodedInstruction) : CPU :=
  cpu.setNzFlags (pyAnd (cpu.reg inst.rn) (cpu.op2 inst))

def CPU.exec_teq (cpu : CPU) (inst : DecodedInstruction) : CPU :=
  cpu.setNzFlags (pyXor (cpu.reg inst.rn) (cpu.reg inst.rm))

def CPU.exec_cmp (cpu : CPU) (inst : DecodedInstruction) : CPU :=
  cpu.setNzFlags (cpu.reg inst.rn - cpu.op2 inst)

def CPU.exec_cmn (cpu : CPU) (inst : DecodedInstruction) : CPU :=
  cpu.setNzFlags (cpu.reg inst.rn + cpu.op2 inst)

def CPU.exec_bic (cpu : CPU) (inst : DecodedInstruction) : CPU :=
  let result := pyAnd (cpu.reg inst.rn) (pyNot (cpu.op2 inst))
  (cpu.setRegRaw inst.rd (mask32 result)).setNzFlags result

def CPU.exec_mvn (cpu : CPU) (inst : DecodedInstruction) : CPU :=
  let result := pyNot (cpu.op2 inst)
  (cpu.setRegRaw inst.rd (mask32 result)).setNzFlags result

/-- 4-byte little-endian word at `addr` in flat memory
(`int.from_bytes(self.memory[addr:addr+4], 'little')`).  Negative
addresses (Python's from-the-end slicing) are unreachable in the claims
and read as from address 0. -/
def CPU.memWord (cpu : CPU) (addr : Int) : Int :=
  let bytes := (cpu.memory.drop addr.toNat).take 4
  Int.ofNat (bytes.foldr (fun b acc => b + 256 * acc) 0)

def CPU.exec_ldr (cpu : CPU) (inst : DecodedInstruction) : CPU :=
  let addr := cpu.reg inst.rn + inst.imm.getD 0
  cpu.setRegRaw inst.rd (cpu.memWord addr)

/-- `(val & 0xFFFFFFFF).to_bytes(4, 'little')`. -/
def wordBytes (val : Int) : List Nat :=
  let v := (mask32 val).toNat
  [v % 256, v / 256 % 256, v / 65536 % 256, v / 16777216 % 256]

def CPU.exec_str (cpu : CPU) (inst : DecodedInstruction) : CPU :=
  let addr := cpu.reg inst.rn + inst.imm.getD 0
  let val := mask32 (cpu.reg inst.rd)
  { cpu with memory := memWrite cpu.memory addr (wordBytes val) }

def CPU.exec_b (cpu : CPU) (inst : DecodedInstruction) : CPU :=
  let imm24 := pyAnd (inst.imm.getD 0) (Int.ofNat 0x00FFFFFF)
  let imm24 :=
    if pyAnd imm24 (Int.ofNat (1 <<< 23)) ≠ 0 then imm24 - Int.ofNat (1 <<< 24)
    else imm24
  let offset := pyShl imm24 2
  let next_pc := cpu.pc + 8
  cpu.setPc (next_pc + offset)

def CPU.exec_bl (cpu : CPU) (inst : DecodedInstruction) : CPU :=
  let imm24 := pyAnd (inst.imm.getD 0) (Int.ofNat 0x00FFFFFF)
  let imm24 :=
    if pyAnd imm24 (Int.ofNat (1 <<< 23)) ≠ 0 then imm24 - Int.ofNat (1 <<< 24)
    else imm24
  let offset := pyShl imm24 2
  let next_pc := cpu.pc + 8
  -- self.regs[14] = self.pc + 4 (a direct list store, not the masking setter)
  let cpu1 := { cpu with regs := cpu.regs.set 14 (cpu.pc + 4) }
  cpu1.setPc (next_pc + offset)

/-- `op_code.lower()`.  (`String.toLower` itself is defined by well-founded
recursion and does not reduce in the kernel; this structural version maps
`Char.toLower` over the characters, which agrees with Python's `.lower()`
on the ASCII mnemonics involved.) -/
def strLower (s : String) : String := String.mk (s.data.map Char.toLower)

/-- `getattr(self, f"exec_{inst.op_code.lower()}", None)`: dynamic dispatch
over the `exec_*` methods that exist on the class. -/
def CPU.getHandlerLower (s : String) :
    Option (CPU → DecodedInstruction → CPU) :=
  if s = "add" then some CPU.exec_add
  else if s = "sub" then some CPU.exec_sub
  else if s = "mov" then some CPU.exec_mov
  else if s = "and" then some CPU.exec_and
  else if s = "eor" then some CPU.exec_eor
  else if s = "orr" then some CPU.exec_orr
  else if s = "rsb" then some CPU.exec_rsb
  else if s = "adc" then some CPU.exec_adc
  else if s = "sbc" then some CPU.exec_sbc
  else if s = "rsc" then some CPU.exec_rsc
  else if s = "tst" then some CPU.exec_tst
  else if s = "teq" then some CPU.exec_teq
  else if s = "cmp" then some CPU.exec_cmp
  else if s = "cmn" then some CPU.exec_cmn
  else if s = "bic" then some CPU.exec_bic
  else if s = "mvn" then some CPU.exec_mvn
  else if s = "ldr" then some CPU.exec_ldr
  else if s = "str" then some CPU.exec_str
  else if s = "b" then some CPU.exec_b
  else if s = "bl" then some CPU.exec_bl
  else none

def CPU.getHandler (op_code : String) :
    Option (CPU → DecodedInstruction → CPU) :=
  CPU.getHandlerLower (strLower op_code)

/-- `CPU.execute`: dispatch; on a missing handler print a warning and
return with the state untouched.  Otherwise run the handler, then advance
the PC by 2/4 unless the handler changed it; the per-register change report
is only printing and has no state effect. -/
def CPU.execute (cpu : CPU) (inst : DecodedInstruction) : CPU :=
  match CPU.getHandler inst.op_code with
  | none => cpu
  | some handler =>
    let before_pc := cpu.regs.getD 15 0
    let cpu1 := handler cpu inst
    if cpu1.regs.getD 15 0 = before_pc then
      cpu1.setPc (cpu1.pc + (if cpu1.cpu_is_thumb then 2 else 4))
    else cpu1

/-! ## Bitwise bridging lemmas -/

/-- Masking with `2^n - 1` is reduction mod `2^n`, also for negative Python
ints; instance for the 24-bit immediate mask. -/
theorem pyAnd_mask24 (x : Int) : pyAnd x (Int.ofNat 0xFFFFFF) = x % 16777216 := by
  cases x with
  | ofNat a =>
    show Int.ofNat (a &&& 0xFFFFFF) = Int.ofNat a % 16777216
    rw [show (0xFFFFFF : Nat) = 2 ^ 24 - 1 from rfl, Nat.and_pow_two_sub_one_eq_mod]
    simp only [show (2 : Nat) ^ 24 = 16777216 from rfl, Int.ofNat_eq_coe]
    omega
  | negSucc a =>
    show Int.ofNat (0xFFFFFF - (a &&& 0xFFFFFF)) = Int.negSucc a % 16777216
    rw [show (0xFFFFFF : Nat) = 2 ^ 24 - 1 from rfl, Nat.and_pow_two_sub_one_eq_mod,
      Int.negSucc_emod a (by norm_num)]
    simp only [show (2 : Nat) ^ 24 = 16777216 from rfl, Int.ofNat_eq_coe]
    omega

/-- Instance of the same fact for the 32-bit mask (`mask32`). -/
theorem mask32_eq_emod (x : Int) : mask32 x = x % 4294967296 := by
  cases x with
  | ofNat a =>
    show Int.ofNat (a &&& 0xFFFFFFFF) = Int.ofNat a % 4294967296
    rw [show (0xFFFFFFFF : Nat) = 2 ^ 32 - 1 from rfl, Nat.and_pow_two_sub_one_eq_mod]
    simp only [show (2 : Nat) ^ 32 = 4294967296 from rfl, Int.ofNat_eq_coe]
    omega
  | negSucc a =>
    show Int.ofNat (0xFFFFFFFF - (a &&& 0xFFFFFFFF)) = Int.negSucc a % 4294967296
    rw [show (0xFFFFFFFF : Nat) = 2 ^ 32 - 1 from rfl, Nat.and_pow_two_sub_one_eq_mod,
      Int.negSucc_emod a (by norm_num)]
    simp only [show (2 : Nat) ^ 32 = 4294967296 from rfl, Int.ofNat_eq_coe]
    omega

/-- `m &&& 2^k` is the bit test at `k`. -/
theorem nat_and_two_pow_eq_zero_iff (m k : Nat) :
    m &&& 2 ^ k = 0 ↔ m.testBit k = false := by
  rw [Nat.and_two_pow]
  rcases h : m.testBit k
  · simp
  · simp only [Bool.toNat_true, one_mul]
    constructor
    · intro hz
      exact absurd hz (Nat.two_pow_pos k).ne'
    · intro hz
      exact Bool.noConfusion hz

/-- Under a 24-bit bound, testing bit 23 is comparison with `2^23`. -/
theorem testBit23_iff {m : Nat} (hm : m < 16777216) :
    m.testBit 23 = true ↔ 8388608 ≤ m := by
  rw [Nat.testBit_to_div_mod]
  simp only [show (2 : Nat) ^ 23 = 8388608 from rfl, decide_eq_true_eq]
  omega

/-- A low part below `2^i` ORs with a multiple of `2^i` additively. -/
theorem lor_high {b : Nat} (a : Nat) {i : Nat} (hb : b < 2 ^ i) :
    b ||| 2 ^ i * a = 2 ^ i * a + b := by
  apply Nat.eq_of_testBit_eq
  intro j
  rw [Nat.testBit_lor, Nat.testBit_mul_pow_two_add a hb j, Nat.testBit_mul_pow_two]
  by_cases hj : j < i
  · simp [hj, Nat.not_le_of_lt hj]
  · have hb2 : b < 2 ^ j :=
      lt_of_lt_of_le hb (Nat.pow_le_pow_right (by norm_num) (Nat.le_of_not_lt hj))
    simp [hj, Nat.le_of_not_lt hj, Nat.testBit_lt_two_pow hb2]

/-! ## C6: unknown opcodes leave the CPU untouched -/

/-- C6.  A decoded instruction whose `op_code` resolves to no `exec_*`
handler makes `execute` report and return: no register (the PC included),
no flag and no memory byte changes, and the PC-advance step is skipped. -/
theorem execute_unknown_opcode_noop (cpu : CPU) (inst : DecodedInstruction)
    (h : CPU.getHandler inst.op_code = none) : cpu.execute inst = cpu := by
  unfold CPU.execute
  rw [h]

/-- Witness for C6 at a concrete decoded word (a DP-register word whose
opcode field is not ADD decodes to `op_code = "UNK"`, which has no
handler). -/
theorem execute_unknown_opcode_noop_witness :
    CPU.getHandler (decode_arm 0xE0312002).op_code = none ∧
    CPU.execute CPU.init (decode_arm 0xE0312002) = CPU.init :=
  ⟨rfl, execute_unknown_opcode_noop CPU.init (decode_arm 0xE0312002) rfl⟩

/-! ## C9: no handler ever writes the C or V flag -/

/-- C9.  Every opcode handler reachable through the dynamic dispatch
(`getattr(self, f"exec_...")`) leaves the C and V flags unchanged from any
starting CPU state: the only flag writes in the executor are `_set_nz_flags`,
which assigns N and Z. -/
theorem handlers_preserve_c_v (op : String) (h : CPU → DecodedInstruction → CPU)
    (cpu : CPU) (inst : DecodedInstruction) (hh : CPU.getHandler op = some h) :
    (h cpu inst).flags.c = cpu.flags.c ∧ (h cpu inst).flags.v = cpu.flags.v := by
  unfold CPU.getHandler CPU.getHandlerLower at hh
  generalize strLower op = s at hh
  by_cases h0 : s = "add"
  · rw [if_pos h0] at hh
    injection hh with hh
    subst hh
    exact ⟨rfl, rfl⟩
  rw [if_neg h0] at hh
  by_cases h1 : s = "sub"
  · rw [if_pos h1] at hh
    injection hh with hh
    subst hh
    exact ⟨rfl, rfl⟩
  rw [if_neg h1] at hh
  by_cases h2 : s = "mov"
  · rw [if_pos h2] at hh
    injection hh with hh
    subst hh
    exact ⟨rfl, rfl⟩
  rw [if_neg h2] at hh
  by_cases h3 : s = "and"
  · rw [if_pos h3] at hh
    injection hh with hh
    subst hh
    exact ⟨rfl, rfl⟩
  rw [if_neg h3] at hh
  by_cases h4 : s = "eor"
  · rw [if_pos h4] at hh
    injection hh with hh
    subst hh
    exact ⟨rfl, rfl⟩
  rw [if_neg h4] at hh
  by_cases h5 : s = "orr"
  · rw [if_pos h5] at hh
    injection hh with hh
    subst hh
    exact ⟨rfl, rfl⟩
  rw [if_neg h5] at hh
  by_cases h6 : s = "rsb"
  · rw [if_pos h6] at hh
    injection hh with hh
    subst hh
    exact ⟨rfl, rfl⟩
  rw [if_neg h6] at hh
  by_cases h7 : s = "adc"
  · rw [if_pos h7] at hh
    injection hh with hh
    subst hh
    exact ⟨rfl, rfl⟩
  rw [if_neg h7] at hh
  by_cases h8 : s = "sbc"
  · rw [if_pos h8] at hh
    injection hh with hh
    subst hh
    exact ⟨rfl, rfl⟩
  rw [if_neg h8] at hh
  by_cases h9 : s = "rsc"
  · rw [if_pos h9] at hh
    injection hh with hh
    subst hh
    exact ⟨rfl, rfl⟩
  rw [if_neg h9] at hh
  by_cases h10 : s = "tst"
  · rw [if_pos h10] at hh
    injection hh with hh
    subst hh
    exact ⟨rfl, rfl⟩
  rw [if_neg h10] at hh
  by_cases h11 : s = "teq"
  · rw [if_pos h11] at hh
    injection hh with hh
    subst hh
    exact ⟨rfl, rfl⟩
  rw [if_neg h11] at hh
  by_cases h12 : s = "cmp"
  · rw [if_pos h12] at hh
    injection hh with hh
    subst hh
    exact ⟨rfl, rfl⟩
  rw [if_neg h12] at hh
  by_cases h13 : s = "cmn"
  · rw [if_pos h13] at hh
    injection hh with hh
    subst hh
    exact ⟨rfl, rfl⟩
  rw [if_neg h13] at hh
  by_cases h14 : s = "bic"
  · rw [if_pos h14] at hh
    injection hh with hh
    subst hh
    exact ⟨rfl, rfl⟩
  rw [if_neg h14] at hh
  by_cases h15 : s = "mvn"
  · rw [if_pos h15] at hh
    injection hh with hh
    subst hh
    exact ⟨rfl, rfl⟩
  rw [if_neg h15] at hh
  by_cases h16 : s = "ldr"
  · rw [if_pos h16] at hh
    injection hh with hh
    subst hh
    exact ⟨rfl, rfl⟩
  rw [if_neg h16] at hh
  by_cases h17 : s = "str"
  · rw [if_pos h17] at hh
    injection hh with hh
    subst hh
    exact ⟨rfl, rfl⟩
  rw [if_neg h17] at hh
  by_cases h18 : s = "b"
  · rw [if_pos h18] at hh
    injection hh with hh
    subst hh
    exact ⟨rfl, rfl⟩
  rw [if_neg h18] at hh
  by_cases h19 : s = "bl"
  · rw [if_pos h19] at hh
    injection hh with hh
    subst hh
    exact ⟨rfl, rfl⟩
  rw [if_neg h19] at hh
  exact Option.noConfusion hh

/-- Witness for C9 at the ADD handler and a concrete state. -/
theorem handlers_preserve_c_v_witness :
    CPU.getHandler ("ADD") = some CPU.exec_add ∧
    ((CPU.exec_add CPU.init (decode_arm 0xE2812005)).flags.c = CPU.init.flags.c ∧
     (CPU.exec_add CPU.init (decode_arm 0xE2812005)).flags.v = CPU.init.flags.v) :=
  ⟨rfl, handlers_preserve_c_v ("ADD") CPU.exec_add CPU.init
    (decode_arm 0xE2812005) rfl⟩

/-! ## C10: the DP-register group decodes only ADD -/

/-- C10.  Every word with bits 27-25 = 000 decodes to `op_type = "DP_REG"`
with `rn`, `rd`, `rm` extracted, but `op_code` is `"ADD"` only for opcode
field 0100; any other opcode field leaves `op_code = "UNK"`, which resolves
to no handler, so `execute` changes nothing for register-form SUB, MOV, AND,
ORR, EOR, CMP, ... -/
theorem dp_reg_only_add (w : Nat) (h : (w >>> 25) &&& 7 = 0) :
    (decode_arm w).op_type = "DP_REG" ∧
    (decode_arm w).rn = some ((w >>> 16) &&& 0xF) ∧
    (decode_arm w).rd = some ((w >>> 12) &&& 0xF) ∧
    (decode_arm w).rm = some (w &&& 0xF) ∧
    ((w >>> 21) &&& 0xF = 4 → (decode_arm w).op_code = "ADD") ∧
    ((w >>> 21) &&& 0xF ≠ 4 →
      (decode_arm w).op_code = "UNK" ∧
      CPU.getHandler (decode_arm w).op_code = none ∧
      ∀ cpu : CPU, cpu.execute (decode_arm w) = cpu) := by
  have hd : decode_arm w =
      { machine_code := w, is_thumb := false, op_type := "DP_REG"
        op_code := if (w >>> 21) &&& 0xF = 4 then "ADD" else "UNK"
        cond := w >>> 28
        rn := some ((w >>> 16) &&& 0xF), rd := some ((w >>> 12) &&& 0xF)
        rm := some (w &&& 0xF), imm := none } := by
    unfold decode_arm DecodedInstruction.init
    rw [h]
    norm_num
  rw [hd]
  refine ⟨rfl, rfl, rfl, rfl, fun h4 => by rw [if_pos h4], fun h4 => ?_⟩
  rw [if_neg h4]
  refine ⟨rfl, rfl, ?_⟩
  intro cpu
  unfold CPU.execute
  rfl

/-- Witness for C10 at a concrete register-form SUB word
(`SUB r2, r1, r2` = 0xE0412002, opcode field 0010). -/
theorem dp_reg_only_add_witness :
    ((0xE0412002 : Nat) >>> 25) &&& 7 = 0 ∧
    ((decode_arm 0xE0412002).op_type = "DP_REG" ∧
     (decode_arm 0xE0412002).rn = some (((0xE0412002 : Nat) >>> 16) &&& 0xF) ∧
     (decode_arm 0xE0412002).rd = some (((0xE0412002 : Nat) >>> 12) &&& 0xF) ∧
     (decode_arm 0xE0412002).rm = some ((0xE0412002 : Nat) &&& 0xF) ∧
     (((0xE0412002 : Nat) >>> 21) &&& 0xF = 4 → (decode_arm 0xE0412002).op_code = "ADD") ∧
     (((0xE0412002 : Nat) >>> 21) &&& 0xF ≠ 4 →
       (decode_arm 0xE0412002).op_code = "UNK" ∧
       CPU.getHandler (decode_arm 0xE0412002).op_code = none ∧
       ∀ cpu : CPU, cpu.execute (decode_arm 0xE0412002) = cpu)) :=
  ⟨by decide, dp_reg_only_add 0xE0412002 (by decide)⟩

/-! ## C5: the decoder's branch "sign extension" is an OR pattern, not a
negative integer -/

/-- Counterexample to C5 as stated: for the branch word 0xEA800000 the raw
24-bit field is 0x800000 with bit 23 set, but the decoder returns
`0x800000 | 0xFF000000 = 4286578688`, a *positive* integer, not
`0x800000 - 2^24 = -8388608`. -/
theorem branch_imm_not_negative_counterexample :
    ((0xEA800000 : Nat) >>> 25) &&& 7 = 5 ∧
    (0xEA800000 : Nat) &&& 0xFFFFFF = 0x800000 ∧
    (decode_arm 0xEA800000).imm = some 4286578688 ∧
    ¬ (decode_arm 0xEA800000).imm = some (Int.ofNat 0x800000 - 16777216) := by
  decide

/-- C5 amended.  For every branch-group word the decoder's `imm` is the raw
24-bit field when bit 23 is clear, and the raw field OR-ed with
`0xFF000000` when bit 23 is set — a nonnegative integer that agrees with
the two's-complement value `raw - 2^24` only modulo `2^32`. -/
theorem branch_imm_or_pattern (w : Nat) (h : (w >>> 25) &&& 7 = 5) :
    ∃ i : Int, (decode_arm w).imm = some i ∧ 0 ≤ i ∧
      ((w &&& 0xFFFFFF < 0x800000 → i = Int.ofNat (w &&& 0xFFFFFF)) ∧
       (0x800000 ≤ w &&& 0xFFFFFF →
         i = Int.ofNat ((w &&& 0xFFFFFF) ||| 0xFF000000) ∧
         i % 4294967296 = (Int.ofNat (w &&& 0xFFFFFF) - 16777216) % 4294967296)) := by
  have h1 : (w >>> 25) &&& 7 ≠ 1 := by omega
  have h0 : (w >>> 25) &&& 7 ≠ 0 := by omega
  have h6 : (w >>> 25) &&& 6 ≠ 2 := by
    have h76 : (w >>> 25) &&& 6 = ((w >>> 25) &&& 7) &&& 6 := by
      rw [Nat.and_assoc, show (7 : Nat) &&& 6 = 6 from rfl]
    rw [h76, h]
    decide
  have hraw : w &&& 0xFFFFFF < 16777216 :=
    Nat.lt_succ_of_le (Nat.and_le_right)
  have hd : decode_arm w =
      { machine_code := w, is_thumb := false, op_type := "BRANCH"
        op_code := if (w >>> 24) &&& 1 ≠ 0 then "BL" else "B"
        cond := w >>> 28
        rn := none, rd := none, rm := none
        imm := some (Int.ofNat
          (if ((w &&& 0xFFFFFF) >>> 23) &&& 1 ≠ 0 then
            (w &&& 0xFFFFFF) ||| 0xFF000000
          else w &&& 0xFFFFFF)) } := by
    unfold decode_arm DecodedInstruction.init
    rw [if_neg (h ▸ (by decide : (5 : Nat) ≠ 1) : (w >>> 25) &&& 7 ≠ 1),
      if_neg (h ▸ (by decide : (5 : Nat) ≠ 0) : (w >>> 25) &&& 7 ≠ 0),
      if_neg h6, if_pos h]
    rfl
  rw [hd]
  have hbit : ((w &&& 0xFFFFFF) >>> 23) &&& 1 ≠ 0 ↔ 8388608 ≤ w &&& 0xFFFFFF := by
    rw [Nat.shiftRight_eq_div_pow, Nat.and_one_is_mod,
      show (2 : Nat) ^ 23 = 8388608 from rfl]
    omega
  by_cases hb : 8388608 ≤ w &&& 0xFFFFFF
  · refine ⟨_, rfl, ?_, fun hlt => absurd hb (by omega), fun _ => ?_⟩
    · exact Int.ofNat_nonneg _
    · rw [if_pos (hbit.mpr hb)]
      refine ⟨rfl, ?_⟩
      have hor : (w &&& 0xFFFFFF) ||| 0xFF000000 = 2 ^ 24 * 255 + (w &&& 0xFFFFFF) := by
        rw [show (0xFF000000 : Nat) = 2 ^ 24 * 255 from rfl]
        exact lor_high 255 hraw
      rw [hor]
      simp only [Int.ofNat_eq_coe]
      push_cast
      omega
  · refine ⟨_, rfl, Int.ofNat_nonneg _, fun _ => ?_, fun hge => absurd hge hb⟩
    rw [if_neg (fun hc => hb (hbit.mp hc))]

/-- Witness for the amended C5 at the concrete branch word 0xEA800000. -/
theorem branch_imm_or_pattern_witness :
    ((0xEA800000 : Nat) >>> 25) &&& 7 = 5 ∧
    (∃ i : Int, (decode_arm 0xEA800000).imm = some i ∧ 0 ≤ i ∧
      (((0xEA800000 : Nat) &&& 0xFFFFFF < 0x800000 →
         i = Int.ofNat ((0xEA800000 : Nat) &&& 0xFFFFFF)) ∧
       (0x800000 ≤ (0xEA800000 : Nat) &&& 0xFFFFFF →
         i = Int.ofNat (((0xEA800000 : Nat) &&& 0xFFFFFF) ||| 0xFF000000) ∧
         i % 4294967296 =
           (Int.ofNat ((0xEA800000 : Nat) &&& 0xFFFFFF) - 16777216) % 4294967296))) :=
  ⟨by decide, branch_imm_or_pattern 0xEA800000 (by decide)⟩

/-! ## C4: B/BL branch semantics -/

/-- Two's-complement sign extension of a 24-bit field, stated from the
spec's words ("sign-extend by testing bit 23 and subtracting 2^24 when
set") for comparison with the handlers' computation. -/
def signExtend24 (imm24 : Nat) : Int :=
  if 8388608 ≤ imm24 then (imm24 : Int) - 16777216 else (imm24 : Int)

/-- Testing bit 23 under a 24-bit bound is comparison with `2^23`. -/
theorem and_bit23_ne_zero_iff {m : Nat} (hm : m < 16777216) :
    m &&& 8388608 ≠ 0 ↔ 8388608 ≤ m := by
  have h1 : m &&& 8388608 = m / 8388608 % 2 * 8388608 := by
    rw [show (8388608 : Nat) = 2 ^ 23 from rfl, Nat.and_two_pow, Nat.testBit_to_div_mod]
    rcases Nat.mod_two_eq_zero_or_one (m / 2 ^ 23) with h2 | h2 <;> rw [h2] <;> simp
  rw [h1]
  omega

/-- The handlers' 24-bit mask-and-sign-extend computation equals the
spec-level `signExtend24` of `imm mod 2^24`, and the `<< 2` is `* 4`. -/
theorem pyShl_branch (i : Int) :
    pyShl (if pyAnd (pyAnd i (Int.ofNat 0x00FFFFFF)) (Int.ofNat (1 <<< 23)) ≠ 0 then
             pyAnd i (Int.ofNat 0x00FFFFFF) - Int.ofNat (1 <<< 24)
           else pyAnd i (Int.ofNat 0x00FFFFFF)) 2 =
      signExtend24 (i % 16777216).toNat * 4 := by
  have hnn : 0 ≤ i % 16777216 := Int.emod_nonneg i (by norm_num)
  have hlt : i % 16777216 < 16777216 := Int.emod_lt_of_pos i (by norm_num)
  obtain ⟨n, hn⟩ : ∃ n : Nat, i % 16777216 = Int.ofNat n :=
    ⟨(i % 16777216).toNat, by rw [Int.ofNat_eq_coe, Int.toNat_of_nonneg hnn]⟩
  have hn' : i % 16777216 = (n : Int) := by rw [hn, Int.ofNat_eq_coe]
  have hmlt : n < 16777216 := by
    rw [hn'] at hlt
    exact_mod_cast hlt
  have htn : (i % 16777216).toNat = n := by
    rw [hn]
    rfl
  rw [pyAnd_mask24, htn, hn]
  have hpy : pyAnd (Int.ofNat n) (Int.ofNat (1 <<< 23)) = Int.ofNat (n &&& 8388608) := rfl
  rw [hpy]
  unfold signExtend24 pyShl
  by_cases hb : 8388608 ≤ n
  · rw [if_pos (by
      simp only [Int.ofNat_eq_coe, Ne, Int.natCast_eq_zero]
      exact (and_bit23_ne_zero_iff hmlt).mpr hb), if_pos hb]
    simp only [Int.ofNat_eq_coe]
    push_cast
    ring
  · have h0 : n &&& 8388608 = 0 := by
      by_contra hne
      exact hb ((and_bit23_ne_zero_iff hmlt).mp hne)
    rw [if_neg (by
      simp only [Int.ofNat_eq_coe, Ne, Int.natCast_eq_zero, not_not]
      exact h0), if_neg hb]
    simp only [Int.ofNat_eq_coe]
    ring

/-- C4.  In general `exec_b` sets `pc := (pc + 8 + signExtend24(imm mod
2^24) * 4) mod 2^32` and `exec_bl` additionally sets `lr := pc + 4` first;
concretely, a decoded `B` with immediate field 2 from pc=0 lands at 16, and
a decoded `BL` with immediate field 0xFFFFFF from pc=0 sets lr=4 and
pc=4. -/
theorem branch_semantics :
    (∀ (cpu : CPU) (inst : DecodedInstruction) (i : Int),
       cpu.regs.length = 16 → inst.imm = some i →
       ((cpu.exec_b inst).regs.getD 15 0 =
          (cpu.regs.getD 15 0 + 8 + signExtend24 (i % 16777216).toNat * 4) % 4294967296 ∧
        (cpu.exec_bl inst).regs.getD 14 0 = cpu.regs.getD 15 0 + 4 ∧
        (cpu.exec_bl inst).regs.getD 15 0 =
          (cpu.regs.getD 15 0 + 8 + signExtend24 (i % 16777216).toNat * 4) % 4294967296)) ∧
    (CPU.execute CPU.init (decode_arm 0xEA000002)).regs.getD 15 0 = 16 ∧
    (CPU.execute CPU.init (decode_arm 0xEBFFFFFF)).regs.getD 14 0 = 4 ∧
    (CPU.execute CPU.init (decode_arm 0xEBFFFFFF)).regs.getD 15 0 = 4 := by
  refine ⟨?_, by decide, by decide, by decide⟩
  intro cpu inst i hlen him
  have hget : ∀ (l : List Int) (v : Int), l.length = 16 → (l.set 15 v).getD 15 0 = v := by
    intro l v hl
    rw [List.getD_eq_getElem?_getD, List.getElem?_set_self (by omega), Option.getD_some]
  refine ⟨?_, ?_, ?_⟩
  · simp only [CPU.exec_b, CPU.setPc, CPU.pc, him, Option.getD_some]
    rw [pyShl_branch, hget _ _ hlen, mask32_eq_emod]
  · simp only [CPU.exec_bl, CPU.setPc, CPU.pc, him, Option.getD_some]
    rw [List.getD_eq_getElem?_getD,
      List.getElem?_set_ne (by omega : (15 : Nat) ≠ 14),
      List.getElem?_set_self (by omega), Option.getD_some]
  · simp only [CPU.exec_bl, CPU.setPc, CPU.pc, him, Option.getD_some]
    rw [pyShl_branch, hget _ _ (by rw [List.length_set]; exact hlen), mask32_eq_emod]

/-- Witness for C4's general part at a concrete state and immediate. -/
theorem branch_semantics_witness :
    CPU.init.regs.length = 16 ∧ (decode_arm 0xEA000002).imm = some 2 ∧
    ((CPU.init.exec_b (decode_arm 0xEA000002)).regs.getD 15 0 =
       (CPU.init.regs.getD 15 0 + 8 + signExtend24 ((2 : Int) % 16777216).toNat * 4) %
         4294967296 ∧
     (CPU.init.exec_bl (decode_arm 0xEA000002)).regs.getD 14 0 =
       CPU.init.regs.getD 15 0 + 4 ∧
     (CPU.init.exec_bl (decode_arm 0xEA000002)).regs.getD 15 0 =
       (CPU.init.regs.getD 15 0 + 8 + signExtend24 ((2 : Int) % 16777216).toNat * 4) %
         4294967296) :=
  ⟨by decide, by decide,
    branch_semantics.1 CPU.init (decode_arm 0xEA000002) 2 (by decide) (by decide)⟩

/-! ## C7 / C8: construction performs no validation; zero-line caches fault
at access time -/

/-- Counterexample to C7: a direct-mapped cache whose capacity (1024) is
not divisible by its block size (48) and whose line count (21) is not a
power of two is constructed without any error (there is no
`ConfigurationError` anywhere in the sources), and it can even be read. -/
theorem misconfig_construction_counterexample :
    1024 % 48 ≠ 0 ∧
    (Cache.init "L1" 1 48 "direct").num_lines = 21 ∧
    (∀ k : Nat, 2 ^ k ≠ 21) ∧
    (Cache.init "L1" 1 48 "direct").index_bits = 4 ∧
    ((Cache.init "L1" 1 48 "direct").read (List.replicate 64 0) 0).isSome = true := by
  refine ⟨by norm_num, by decide, ?_, by decide, by decide⟩
  intro k
  rcases Nat.lt_or_ge k 5 with hk | hk
  · interval_cases k <;> decide
  · have h32 : 2 ^ 5 ≤ 2 ^ k := Nat.pow_le_pow_right (by norm_num) hk
    omega

/-- C7 amended.  The constructor validates nothing: it always succeeds,
flooring the line count (`int(size / block_size)`); and a direct-mapped
cache whose index range fits inside its line list (as in the 21-line
example: `2^4 ≤ 21`) also never faults on `read`, so the misconfiguration
is not surfaced at access time either. -/
theorem misconfigured_cache_no_failure :
    (∀ (nm : String) (szb blk : Nat) (mt : String),
       (Cache.initBytes nm szb blk mt).num_lines = szb / blk ∧
       (Cache.initBytes nm szb blk mt).lines.length = szb / blk) ∧
    (∀ (c : Cache) (mem : List Nat) (address : Nat),
       c.mapping_type = "direct" → 2 ^ c.index_bits ≤ c.lines.length →
       ∃ out, c.read mem address = some out) := by
  constructor
  · intro nm szb blk mt
    exact ⟨rfl, by simp [Cache.initBytes]⟩
  · intro c mem a hdir hlen
    have hpos : 0 < 2 ^ c.index_bits := Nat.two_pow_pos _
    have hixlt : (a >>> c.offset_bits) &&& ((1 <<< c.index_bits) - 1) <
        2 ^ c.index_bits := by
      rw [Nat.one_shiftLeft, Nat.and_pow_two_sub_one_eq_mod]
      exact Nat.mod_lt _ hpos
    have hixlen : (a >>> c.offset_bits) &&& ((1 <<< c.index_bits) - 1) <
        c.lines.length := lt_of_lt_of_le hixlt hlen
    obtain ⟨l, hl⟩ : ∃ l,
        c.lines[(a >>> c.offset_bits) &&& ((1 <<< c.index_bits) - 1)]? = some l :=
      ⟨_, List.getElem?_eq_getElem hixlen⟩
    have hparts : c.getAddressParts a =
        (a >>> (c.offset_bits + c.index_bits),
         (a >>> c.offset_bits) &&& ((1 <<< c.index_bits) - 1),
         a &&& ((1 <<< c.offset_bits) - 1)) := by
      simp [Cache.getAddressParts, hdir]
    have hfl : c.findLine (a >>> (c.offset_bits + c.index_bits))
        ((a >>> c.offset_bits) &&& ((1 <<< c.index_bits) - 1)) =
        some (some ((a >>> c.offset_bits) &&& ((1 <<< c.index_bits) - 1), l)) := by
      simp [Cache.findLine, hdir, hl]
    have hnotfa : ¬ c.mapping_type = "fully-assoc" := by
      rw [hdir]
      decide
    unfold Cache.read
    rw [hparts]
    dsimp only
    rw [hfl]
    dsimp only
    by_cases hc : (l.valid && (l.tag == Int.ofNat (a >>> (c.offset_bits + c.index_bits)))) = true
    · rw [if_pos hc, if_neg hnotfa]
      dsimp only
      rw [hl]
      exact ⟨_, rfl⟩
    · rw [if_neg hc]
      unfold Cache.readMiss Cache.handleMiss
      dsimp only
      rw [if_neg hnotfa]
      rw [hl]
      (try dsimp only)
      rw [if_neg hnotfa]
      rw [List.getElem?_set_self (by simpa using hixlen)]
      exact ⟨_, rfl⟩

/-- Witness for the amended C7 at the misconfigured 21-line cache. -/
theorem misconfigured_cache_no_failure_witness :
    ((Cache.init "L1" 1 48 "direct").num_lines = 1024 / 48 ∧
     (Cache.init "L1" 1 48 "direct").lines.length = 1024 / 48) ∧
    ((Cache.init "L1" 1 48 "direct").mapping_type = "direct" ∧
     2 ^ (Cache.init "L1" 1 48 "direct").index_bits ≤
       (Cache.init "L1" 1 48 "direct").lines.length) ∧
    (∃ out, (Cache.init "L1" 1 48 "direct").read (List.replicate 64 0) 16 = some out) :=
  ⟨misconfigured_cache_no_failure.1 "L1" 1024 48 "direct",
   ⟨by decide, by decide⟩,
   misconfigured_cache_no_failure.2 (Cache.init "L1" 1 48 "direct")
     (List.replicate 64 0) 16 (by decide) (by decide)⟩

/-- Counterexample to C8: a cache with capacity smaller than one block
constructs (index_bits degenerates to 0), but `read` does *not* complete:
`self.lines[...]` raises `IndexError` (modelled as `none`) for both
mapping policies, and so does `write`. -/
theorem zero_line_cache_faults_counterexample :
    (Cache.init "Z" 0 16 "direct").num_lines = 0 ∧
    (Cache.init "Z" 0 16 "direct").index_bits = 0 ∧
    (Cache.init "Z" 0 16 "direct").read (List.replicate 64 0) 0 = none ∧
    (Cache.init "Z" 0 16 "fully-assoc").read (List.replicate 64 0) 0 = none ∧
    (Cache.init "Z" 0 16 "direct").write (List.replicate 64 0) 0 [1, 2, 3, 4] = none := by
  decide

/-- C8 amended.  A capacity smaller than one block yields a zero-line cache
whose construction succeeds with `index_bits = 0` and an empty line list —
but every `read` and every `write` on such a cache faults with an
`IndexError` instead of completing. -/
theorem zero_line_cache_degenerate :
    (∀ (nm : String) (szb blk : Nat) (mt : String), szb < blk →
       (Cache.initBytes nm szb blk mt).num_lines = 0 ∧
       (Cache.initBytes nm szb blk mt).index_bits = 0 ∧
       (Cache.initBytes nm szb blk mt).lines = []) ∧
    (∀ (c : Cache) (mem : List Nat) (address : Nat) (word : List Nat),
       c.lines = [] → c.read mem address = none ∧ c.write mem address word = none) := by
  constructor
  · intro nm szb blk mt hlt
    have hdiv : szb / blk = 0 := Nat.div_eq_of_lt hlt
    refine ⟨hdiv, ?_, ?_⟩
    · by_cases hmt : mt = "direct" <;> simp [Cache.initBytes, hdiv, hmt]
    · simp [Cache.initBytes, hdiv]
  · intro c mem address word hempty
    by_cases hmt : c.mapping_type = "direct"
    · constructor
      · unfold Cache.read
        dsimp only
        rw [show c.findLine (c.getAddressParts address).1 (c.getAddressParts address).2.1
            = none by simp [Cache.findLine, hmt, hempty]]
      · unfold Cache.write
        dsimp only
        rw [show c.findLine (c.getAddressParts address).1 (c.getAddressParts address).2.1
            = none by simp [Cache.findLine, hmt, hempty]]
    · have hfl : ∀ t ix, c.findLine t ix = some none := by
        intro t ix
        simp [Cache.findLine, hmt, hempty, findAssoc]
      have hlru : findLruLine c.lines = 0 := by
        rw [hempty]
        rfl
      have hmiss : ∀ t ix, Cache.handleMiss { c with misses := c.misses + 1 }
          mem address t ix = none := by
        intro t ix
        unfold Cache.handleMiss
        dsimp only
        by_cases hfa : c.mapping_type = "fully-assoc" <;>
          simp [hfa, hlru, hempty]
      constructor
      · unfold Cache.read
        dsimp only
        rw [hfl]
        dsimp only
        rw [show (Cache.readMiss c mem address (c.getAddressParts address).1
            (c.getAddressParts address).2.1 (c.getAddressParts address).2.2) = none by
          unfold Cache.readMiss
          (try dsimp only)
          rw [hmiss]]
      · unfold Cache.write
        dsimp only
        rw [hfl]
        dsimp only
        rw [show (Cache.writeMiss c mem address (c.getAddressParts address).1
            (c.getAddressParts address).2.1 (c.getAddressParts address).2.2 word) = none by
          unfold Cache.writeMiss
          (try dsimp only)
          rw [hmiss]]

/-- Witness for the amended C8 at the concrete zero-line cache. -/
theorem zero_line_cache_degenerate_witness :
    ((Cache.initBytes "Z" 0 16 "direct").num_lines = 0 ∧
     (Cache.initBytes "Z" 0 16 "direct").index_bits = 0 ∧
     (Cache.initBytes "Z" 0 16 "direct").lines = []) ∧
    ((Cache.initBytes "Z" 0 16 "direct").read (List.replicate 64 0) 4 = none ∧
     (Cache.initBytes "Z" 0 16 "direct").write (List.replicate 64 0) 4 [9] = none) :=
  ⟨zero_line_cache_degenerate.1 "Z" 0 16 "direct" (by decide),
   zero_line_cache_degenerate.2 (Cache.initBytes "Z" 0 16 "direct")
     (List.replicate 64 0) 4 [9] (by decide)⟩

/-! ## C1: the write-back address reconstruction is wrong for
fully-associative caches

`_handle_miss` reconstructs `old_address = (tag << (offset_bits +
index_bits)) | (victim_line_index << offset_bits)`.  For a direct-mapped
cache the slot index *is* the address's index field, so this is the
original block address.  For a fully-associative cache `index_bits = 0` and
the slot index is *not* an address field, yet it is still OR-ed in, so a
dirty victim in slot `i` whose tag has a zero bit where `i` has a one bit is
written back to the wrong lower-level address. -/

/-- 64 bytes of zeroed lower-level memory. -/
def demoMem : List Nat := List.replicate 64 0

/-- A 2-line fully-associative cache with 16-byte blocks (32 bytes total,
as `test_cache.py` builds fractional-kilobyte caches). -/
def demoFA : Cache := Cache.initBytes "FA" 32 16 "fully-assoc"

/-- The state after: read 0x10 (fills slot 0 with tag 1), read 0x00 (fills
slot 1 with tag 0), write [9,9,9,9] at 0x00 (dirties slot 1), read 0x20
(evicts clean slot 0).  Slot 1 now holds tag 0, dirty, with the block that
belongs at lower-level address 0. -/
def demoBeforeEviction : Option (List Nat × Cache × List Nat) :=
  (((demoFA.read demoMem 16).bind (fun p => p.2.1.read p.2.2 0)).bind
    (fun p => p.2.1.write p.2.2 0 [9, 9, 9, 9])).bind
    (fun p => p.1.read p.2 32)

/-- One more read (0x30) evicts the dirty slot 1. -/
def demoAfterEviction : Option (List Nat × Cache × List Nat) :=
  demoBeforeEviction.bind (fun p => p.2.1.read p.2.2 48)

/-- C1 fails on the code (code bug): before the eviction, slot 1 is valid
and dirty with tag 0, so its block's original address is `0 <<< 4 = 0`; the
eviction does increment `write_backs` by exactly one and does write the
whole dirty block — but to lower-level address `(0 <<< 4) ||| (1 <<< 4) =
16`: the `[9,9,9,9]` stored at address 0 ends up at bytes 16..19 of the
lower level, while bytes 0..3 still hold zeros. -/
theorem fully_assoc_writeback_wrong_address :
    demoBeforeEviction.map
        (fun p => p.2.1.lines.map (fun l => (l.valid, l.dirty, l.tag))) =
      some [(true, false, Int.ofNat 2), (true, true, Int.ofNat 0)] ∧
    demoBeforeEviction.map (fun p => p.2.1.write_backs) = some 0 ∧
    demoAfterEviction.map
        (fun p => (p.2.1.write_backs, p.2.2.take 4, (p.2.2.drop 16).take 4)) =
      some (1, [0, 0, 0, 0], [9, 9, 9, 9]) := by
  decide

/-! ## C2: LRU bookkeeping and victim selection -/

theorem updateLruAux_getElem? (lines : List CacheLine) (i acc j : Nat) :
    (updateLruAux lines i acc)[j]? = (lines[j]?).map (fun l =>
      if l.valid then
        (if i + j = acc then { l with lru_counter := 0 }
         else { l with lru_counter := l.lru_counter + 1 })
      else l) := by
  induction lines generalizing i j with
  | nil => simp [updateLruAux]
  | cons hd tl ih =>
    cases j with
    | zero => simp [updateLruAux]
    | succ j' =>
      simp only [updateLruAux, List.getElem?_cons_succ, ih (i + 1) j']
      have h1 : i + 1 + j' = i + (j' + 1) := by omega
      rw [h1]

theorem updateLru_getElem? (lines : List CacheLine) (acc j : Nat) :
    (updateLru lines acc)[j]? = (lines[j]?).map (fun l =>
      if l.valid then
        (if j = acc then { l with lru_counter := 0 }
         else { l with lru_counter := l.lru_counter + 1 })
      else l) := by
  unfold updateLru
  rw [updateLruAux_getElem?]
  simp

theorem findFirstInvalid_some (lines : List CacheLine) (i : Nat)
    (h : findFirstInvalid lines = some i) :
    ∃ l : CacheLine, lines[i]? = some l ∧ l.valid = false ∧
      ∀ k : Nat, k < i → ∀ lk : CacheLine, lines[k]? = some lk →
        lk.valid = true := by
  induction lines generalizing i with
  | nil => exact absurd h (by simp [findFirstInvalid])
  | cons hd tl ih =>
    unfold findFirstInvalid at h
    by_cases hv : hd.valid
    · rw [if_pos hv] at h
      rcases ho : findFirstInvalid tl with _ | i'
      · rw [ho] at h
        simp at h
      · rw [ho] at h
        simp only [Option.map_some', Option.some.injEq] at h
        obtain ⟨l, hl, hlv, hk⟩ := ih i' ho
        refine ⟨l, ?_, hlv, ?_⟩
        · rw [← h]
          simpa using hl
        · intro k hk2 lk hlk
          rcases k with _ | k'
          · simp only [List.getElem?_cons_zero, Option.some.injEq] at hlk
            rw [← hlk]
            exact hv
          · rw [List.getElem?_cons_succ] at hlk
            exact hk k' (by omega) lk hlk
    · rw [if_neg hv] at h
      simp only [Option.some.injEq] at h
      refine ⟨hd, by rw [← h]; simp, by simpa using hv, ?_⟩
      intro k hk
      rw [← h] at hk
      omega

theorem findFirstInvalid_none (lines : List CacheLine)
    (h : findFirstInvalid lines = none) :
    ∀ (k : Nat) (lk : CacheLine), lines[k]? = some lk → lk.valid = true := by
  induction lines with
  | nil => simp
  | cons hd tl ih =>
    unfold findFirstInvalid at h
    by_cases hv : hd.valid
    · rw [if_pos hv] at h
      intro k lk hlk
      rcases k with _ | k'
      · simp only [List.getElem?_cons_zero, Option.some.injEq] at hlk
        rw [← hlk]
        exact hv
      · rw [List.getElem?_cons_succ] at hlk
        rcases ho : findFirstInvalid tl with _ | i'
        · exact ih ho k' lk hlk
        · rw [ho] at h
          simp at h
    · rw [if_neg hv] at h
      simp at h

theorem argmaxLru_spec (lines : List CacheLine) :
    ∀ (i best : Nat) (bv : Int),
      (argmaxLru lines i best bv = best ∧
        ∀ (j : Nat) (lj : CacheLine), lines[j]? = some lj →
          (lj.lru_counter : Int) ≤ bv) ∨
      (∃ (j : Nat) (lj : CacheLine), lines[j]? = some lj ∧
        argmaxLru lines i best bv = i + j ∧
        bv < (lj.lru_counter : Int) ∧
        (∀ (k : Nat) (lk : CacheLine), k < j → lines[k]? = some lk →
          lk.lru_counter < lj.lru_counter) ∧
        (∀ (k : Nat) (lk : CacheLine), lines[k]? = some lk →
          lk.lru_counter ≤ lj.lru_counter)) := by
  induction lines with
  | nil =>
    intro i best bv
    left
    exact ⟨rfl, by simp⟩
  | cons hd tl ih =>
    intro i best bv
    unfold argmaxLru
    by_cases hgt : bv < (hd.lru_counter : Int)
    · rw [if_pos hgt]
      rcases ih (i + 1) i hd.lru_counter with ⟨heq, hall⟩ | ⟨j, lj, hlj, heq, hbv, hpre, hall⟩
      · right
        refine ⟨0, hd, by simp, by rw [heq]; omega, hgt, by omega, ?_⟩
        intro k lk hlk
        rcases k with _ | k'
        · simp only [List.getElem?_cons_zero, Option.some.injEq] at hlk
          rw [← hlk]
        · rw [List.getElem?_cons_succ] at hlk
          exact_mod_cast hall k' lk hlk
      · right
        refine ⟨j + 1, lj, by simpa using hlj, by rw [heq]; omega,
          lt_trans hgt hbv, ?_, ?_⟩
        · intro k lk hk hlk
          rcases k with _ | k'
          · simp only [List.getElem?_cons_zero, Option.some.injEq] at hlk
            rw [← hlk]
            exact_mod_cast hbv
          · rw [List.getElem?_cons_succ] at hlk
            exact hpre k' lk (by omega) hlk
        · intro k lk hlk
          rcases k with _ | k'
          · simp only [List.getElem?_cons_zero, Option.some.injEq] at hlk
            rw [← hlk]
            exact_mod_cast le_of_lt hbv
          · rw [List.getElem?_cons_succ] at hlk
            exact hall k' lk hlk
    · rw [if_neg hgt]
      rcases ih (i + 1) best bv with ⟨heq, hall⟩ | ⟨j, lj, hlj, heq, hbv, hpre, hall⟩
      · left
        refine ⟨heq, ?_⟩
        intro k lk hlk
        rcases k with _ | k'
        · simp only [List.getElem?_cons_zero, Option.some.injEq] at hlk
          rw [← hlk]
          omega
        · rw [List.getElem?_cons_succ] at hlk
          exact hall k' lk hlk
      · right
        refine ⟨j + 1, lj, by simpa using hlj, by rw [heq]; omega, hbv, ?_, ?_⟩
        · intro k lk hk hlk
          rcases k with _ | k'
          · simp only [List.getElem?_cons_zero, Option.some.injEq] at hlk
            rw [← hlk]
            have hle : (hd.lru_counter : Int) ≤ bv := by omega
            have h2 : (hd.lru_counter : Int) < (lj.lru_counter : Int) :=
              lt_of_le_of_lt hle hbv
            exact_mod_cast h2
          · rw [List.getElem?_cons_succ] at hlk
            exact hpre k' lk (by omega) hlk
        · intro k lk hlk
          rcases k with _ | k'
          · simp only [List.getElem?_cons_zero, Option.some.injEq] at hlk
            rw [← hlk]
            have hle : (hd.lru_counter : Int) ≤ bv := by omega
            have h2 : (hd.lru_counter : Int) ≤ (lj.lru_counter : Int) :=
              le_of_lt (lt_of_le_of_lt hle hbv)
            exact_mod_cast h2
          · rw [List.getElem?_cons_succ] at hlk
            exact hall k' lk hlk

/-- C2.  The fully-associative LRU policy: (1) `_update_lru(i)` zeroes the
accessed (valid) line's counter and increments every *other* valid line's
counter by one; (2) on a miss, `_find_lru_line` returns the lowest-index
invalid line when one exists; (3) when all lines are valid it returns the
valid line with the highest counter, ties broken by the lowest index (the
first such line in a left-to-right scan). -/
theorem lru_policy_spec :
    (∀ (lines : List CacheLine) (i : Nat) (li : CacheLine),
       lines[i]? = some li → li.valid = true →
       ((updateLru lines i)[i]? = some { li with lru_counter := 0 } ∧
        ∀ (j : Nat) (lj : CacheLine), j ≠ i → lines[j]? = some lj →
          lj.valid = true →
          (updateLru lines i)[j]? =
            some { lj with lru_counter := lj.lru_counter + 1 })) ∧
    (∀ (lines : List CacheLine) (j : Nat) (lj : CacheLine),
       lines[j]? = some lj → lj.valid = false →
       ∃ lv : CacheLine, lines[findLruLine lines]? = some lv ∧
         lv.valid = false ∧
         ∀ (k : Nat) (lk : CacheLine), k < findLruLine lines →
           lines[k]? = some lk → lk.valid = true) ∧
    (∀ lines : List CacheLine, lines ≠ [] →
       (∀ (k : Nat) (lk : CacheLine), lines[k]? = some lk → lk.valid = true) →
       ∃ lv : CacheLine, lines[findLruLine lines]? = some lv ∧
         (∀ (k : Nat) (lk : CacheLine), lines[k]? = some lk →
           lk.lru_counter ≤ lv.lru_counter) ∧
         (∀ (k : Nat) (lk : CacheLine), k < findLruLine lines →
           lines[k]? = some lk → lk.lru_counter < lv.lru_counter)) := by
  refine ⟨?_, ?_, ?_⟩
  · intro lines i li hli hvalid
    constructor
    · rw [updateLru_getElem?, hli]
      simp [hvalid]
    · intro j lj hne hlj hv
      rw [updateLru_getElem?, hlj]
      simp [hv, hne]
  · intro lines j lj hlj hinv
    rcases ho : findFirstInvalid lines with _ | i
    · exfalso
      have hv := findFirstInvalid_none lines ho j lj hlj
      rw [hinv] at hv
      exact Bool.noConfusion hv
    · obtain ⟨lv, hlv, hlvv, hpre⟩ := findFirstInvalid_some lines i ho
      have hfl : findLruLine lines = i := by
        unfold findLruLine
        rw [ho]
      rw [hfl]
      exact ⟨lv, hlv, hlvv, fun k lk hk hlk => hpre k hk lk hlk⟩
  · intro lines hne hallvalid
    have hff : findFirstInvalid lines = none := by
      rcases ho : findFirstInvalid lines with _ | i
      · rfl
      · obtain ⟨l, hl, hlv, _⟩ := findFirstInvalid_some lines i ho
        have hv := hallvalid i l hl
        rw [hlv] at hv
        exact Bool.noConfusion hv
    have hfl : findLruLine lines = argmaxLru lines 0 0 (-1) := by
      unfold findLruLine
      rw [hff]
    rcases argmaxLru_spec lines 0 0 (-1) with ⟨heq, hall⟩ | ⟨j, lj, hlj, heq, _, hpre, hall⟩
    · exfalso
      rcases lines with _ | ⟨hd, tl⟩
      · exact hne rfl
      · have hle := hall 0 hd (by simp)
        omega
    · rw [hfl, heq]
      simp only [Nat.zero_add]
      exact ⟨lj, hlj, fun k lk hlk => hall k lk hlk,
        fun k lk hk hlk => hpre k lk hk hlk⟩

def wlineA : CacheLine := ⟨true, false, 5, [], 3⟩
def wlineB : CacheLine := ⟨true, false, 7, [], 1⟩
def wlineC : CacheLine := ⟨false, false, -1, [], 0⟩

/-- Witness for C2 on concrete line lists (a valid pair, a pair with an
invalid line, and an all-valid pair). -/
theorem lru_policy_spec_witness :
    (((updateLru [wlineA, wlineB] 0)[0]? = some { wlineA with lru_counter := 0 } ∧
      ∀ (j : Nat) (lj : CacheLine), j ≠ 0 → [wlineA, wlineB][j]? = some lj →
        lj.valid = true →
        (updateLru [wlineA, wlineB] 0)[j]? =
          some { lj with lru_counter := lj.lru_counter + 1 })) ∧
    (∃ lv : CacheLine,
      [wlineA, wlineC][findLruLine [wlineA, wlineC]]? = some lv ∧
      lv.valid = false ∧
      ∀ (k : Nat) (lk : CacheLine), k < findLruLine [wlineA, wlineC] →
        [wlineA, wlineC][k]? = some lk → lk.valid = true) ∧
    (∃ lv : CacheLine,
      [wlineA, wlineB][findLruLine [wlineA, wlineB]]? = some lv ∧
      (∀ (k : Nat) (lk : CacheLine), [wlineA, wlineB][k]? = some lk →
        lk.lru_counter ≤ lv.lru_counter) ∧
      (∀ (k : Nat) (lk : CacheLine), k < findLruLine [wlineA, wlineB] →
        [wlineA, wlineB][k]? = some lk → lk.lru_counter < lv.lru_counter)) :=
  ⟨lru_policy_spec.1 [wlineA, wlineB] 0 wlineA (by decide) (by decide),
   lru_policy_spec.2.1 [wlineA, wlineC] 1 wlineC (by decide) (by decide),
   lru_policy_spec.2.2 [wlineA, wlineB] (by decide) (by
     intro k lk hlk
     rcases k with _ | k
     · simp only [List.getElem?_cons_zero, Option.some.injEq] at hlk
       rw [← hlk]
       rfl
     · rcases k with _ | k
       · simp only [List.getElem?_cons_succ, List.getElem?_cons_zero,
           Option.some.injEq] at hlk
         rw [← hlk]
         rfl
       · simp at hlk)⟩

/-! ## C3: a repeated read always hits the second time -/

theorem getElem?_some_lt {α : Type} {l : List α} {i : Nat} {x : α}
    (h : l[i]? = some x) : i < l.length := by
  rcases List.getElem?_eq_some.mp h with ⟨hlt, _⟩
  exact hlt

theorem updateLruAux_length (lines : List CacheLine) (i acc : Nat) :
    (updateLruAux lines i acc).length = lines.length := by
  induction lines generalizing i with
  | nil => rfl
  | cons hd tl ih => simp [updateLruAux, ih]

theorem updateLru_length (lines : List CacheLine) (acc : Nat) :
    (updateLru lines acc).length = lines.length :=
  updateLruAux_length lines 0 acc

/-- `_update_lru` changes only the recency counters: validity, tag and data
of every slot are preserved. -/
theorem updateLru_fields (lines : List CacheLine) (acc j : Nat) (l : CacheLine)
    (hl : lines[j]? = some l) :
    ∃ l' : CacheLine, (updateLru lines acc)[j]? = some l' ∧ l'.valid = l.valid ∧
      l'.tag = l.tag ∧ l'.data = l.data := by
  rw [updateLru_getElem?, hl]
  by_cases hv : l.valid <;> by_cases hj : j = acc <;> simp [hv, hj]

/-- What a successful fully-associative scan means: the returned slot holds
a valid line with the wanted tag, and every earlier slot fails the test. -/
theorem findAssoc_some {lines : List CacheLine} {t : Int} {i : Nat}
    {l : CacheLine} (h : findAssoc lines t = some (i, l)) :
    lines[i]? = some l ∧ (l.valid && (l.tag == t)) = true ∧
      ∀ (k : Nat) (lk : CacheLine), k < i → lines[k]? = some lk →
        (lk.valid && (lk.tag == t)) = false := by
  induction lines generalizing i with
  | nil => exact absurd h (by simp [findAssoc])
  | cons hd tl ih =>
    unfold findAssoc at h
    by_cases hc : (hd.valid && (hd.tag == t)) = true
    · rw [if_pos hc] at h
      simp only [Option.some.injEq, Prod.mk.injEq] at h
      obtain ⟨hi, hl⟩ := h
      subst hi
      subst hl
      exact ⟨by simp, hc, fun k lk hk _ => absurd hk (by omega)⟩
    · rw [if_neg hc] at h
      rcases ho : findAssoc tl t with _ | ⟨i', l'⟩
      · rw [ho] at h
        simp at h
      · rw [ho] at h
        simp only [Option.map_some', Option.some.injEq, Prod.mk.injEq] at h
        obtain ⟨hi, hl⟩ := h
        subst hl
        obtain ⟨hl1, hc1, hpre⟩ := ih ho
        refine ⟨by rw [← hi]; simpa using hl1, hc1, ?_⟩
        intro k lk hk hlk
        rcases k with _ | k'
        · simp only [List.getElem?_cons_zero, Option.some.injEq] at hlk
          rw [← hlk]
          exact Bool.eq_false_iff.mpr (fun habs => hc habs)
        · rw [List.getElem?_cons_succ] at hlk
          exact hpre k' lk (by omega) hlk

theorem findAssoc_none {lines : List CacheLine} {t : Int}
    (h : findAssoc lines t = none) :
    ∀ (k : Nat) (lk : CacheLine), lines[k]? = some lk →
      (lk.valid && (lk.tag == t)) = false := by
  induction lines with
  | nil => simp
  | cons hd tl ih =>
    unfold findAssoc at h
    by_cases hc : (hd.valid && (hd.tag == t)) = true
    · rw [if_pos hc] at h
      simp at h
    · rw [if_neg hc] at h
      intro k lk hlk
      rcases k with _ | k'
      · simp only [List.getElem?_cons_zero, Option.some.injEq] at hlk
        rw [← hlk]
        exact Bool.eq_false_iff.mpr (fun habs => hc habs)
      · rw [List.getElem?_cons_succ] at hlk
        rcases ho : findAssoc tl t with _ | p
        · exact ih ho k' lk hlk
        · rw [ho] at h
          simp at h

/-- Converse: a slot holding a valid line with the wanted tag, all of whose
predecessors fail the test, is what the scan returns. -/
theorem findAssoc_of (lines : List CacheLine) (t : Int) (i : Nat) (l : CacheLine)
    (hl : lines[i]? = some l) (hc : (l.valid && (l.tag == t)) = true)
    (hpre : ∀ (k : Nat) (lk : CacheLine), k < i → lines[k]? = some lk →
      (lk.valid && (lk.tag == t)) = false) :
    findAssoc lines t = some (i, l) := by
  induction lines generalizing i with
  | nil => exact absurd hl (by simp)
  | cons hd tl ih =>
    unfold findAssoc
    rcases i with _ | i'
    · simp only [List.getElem?_cons_zero, Option.some.injEq] at hl
      subst hl
      rw [if_pos hc]
    · rw [List.getElem?_cons_succ] at hl
      have hhd : (hd.valid && (hd.tag == t)) = false := by
        have := hpre 0 hd (by omega) (by simp)
        exact this
      rw [if_neg (by rw [hhd]; exact Bool.false_ne_true)]
      rw [ih i' hl (fun k lk hk hlk => hpre (k + 1) lk (by omega) (by simpa using hlk))]
      rfl

/-- What a `some (some (i, l))` result of `_find_line` means per policy. -/
theorem findLine_some_some {c : Cache} {t ix i : Nat} {l : CacheLine}
    (h : c.findLine t ix = some (some (i, l))) :
    (c.mapping_type = "direct" ∧ i = ix ∧ c.lines[ix]? = some l) ∨
    (¬ c.mapping_type = "direct" ∧ findAssoc c.lines (Int.ofNat t) = some (i, l)) := by
  unfold Cache.findLine at h
  by_cases hd : c.mapping_type = "direct"
  · rw [if_pos hd] at h
    left
    rcases hl : c.lines[ix]? with _ | l'
    · rw [hl] at h
      exact absurd h (by simp)
    · rw [hl] at h
      simp only [Option.some.injEq, Prod.mk.injEq] at h
      refine ⟨hd, h.1.symm, ?_⟩
      exact congrArg some h.2
  · rw [if_neg hd] at h
    right
    simp only [Option.some.injEq] at h
    exact ⟨hd, h⟩

/-- Running `read` when the candidate line hits: one hit is counted, the
LRU update is applied in the fully-associative policy, and the bytes come
from the (LRU-updated) resident line; the lower level is untouched. -/
theorem read_hit_run (c : Cache) (mem : List Nat) (a t ix off i : Nat)
    (l l2 : CacheLine)
    (hparts : c.getAddressParts a = (t, ix, off))
    (hfl : c.findLine t ix = some (some (i, l)))
    (hc : (l.valid && (l.tag == Int.ofNat t)) = true)
    (hl2 : (if c.mapping_type = "fully-assoc" then updateLru c.lines i
            else c.lines)[i]? = some l2) :
    c.read mem a = some ((l2.data.drop off).take 4,
      (if c.mapping_type = "fully-assoc"
       then { c with hits := c.hits + 1, lines := updateLru c.lines i }
       else { c with hits := c.hits + 1 }), mem) := by
  unfold Cache.read
  rw [hparts]
  dsimp only
  rw [hfl]
  dsimp only
  rw [if_pos hc]
  by_cases hfa : c.mapping_type = "fully-assoc"
  · rw [if_pos hfa] at hl2
    rw [if_pos hfa]
    rw [show ({ c with hits := c.hits + 1, lines := updateLru c.lines i } :
      Cache).lines[i]? = some l2 from hl2]
  · rw [if_neg hfa] at hl2
    rw [if_neg hfa]
    rw [show ({ c with hits := c.hits + 1 } : Cache).lines[i]? = some l2 from hl2]

/-- `_get_address_parts` depends only on the mapping policy and the derived
bit widths. -/
theorem getAddressParts_congr (c c2 : Cache)
    (hmt : c2.mapping_type = c.mapping_type)
    (ho : c2.offset_bits = c.offset_bits) (hi : c2.index_bits = c.index_bits)
    (a : Nat) : c2.getAddressParts a = c.getAddressParts a := by
  unfold Cache.getAddressParts
  rw [hmt, ho, hi]

theorem findLine_direct (c : Cache) (t ix : Nat) (hd : c.mapping_type = "direct")
    (l : CacheLine) (hl : c.lines[ix]? = some l) :
    c.findLine t ix = some (some (ix, l)) := by
  unfold Cache.findLine
  rw [if_pos hd, hl]

theorem findLine_assoc (c : Cache) (t ix : Nat)
    (hd : ¬ c.mapping_type = "direct") :
    c.findLine t ix = some (findAssoc c.lines (Int.ofNat t)) := by
  unfold Cache.findLine
  rw [if_neg hd]

/-- What a `some none` result of `_find_line` (Python's `(-1, None)`)
means: a fully-associative-style scan that found nothing. -/
theorem findLine_some_none {c : Cache} {t ix : Nat}
    (h : c.findLine t ix = some none) :
    ¬ c.mapping_type = "direct" ∧
      findAssoc c.lines (Int.ofNat t) = none := by
  unfold Cache.findLine at h
  by_cases hd : c.mapping_type = "direct"
  · rw [if_pos hd] at h
    rcases hl : c.lines[ix]? with _ | l' <;> rw [hl] at h <;> simp at h
  · rw [if_neg hd] at h
    simp only [Option.some.injEq] at h
    exact ⟨hd, h⟩

/-- `_update_lru` viewed backwards: any slot of the updated list comes from
the same slot of the original list with `valid`, `tag` and `data`
unchanged. -/
theorem updateLru_fields_rev (lines : List CacheLine) (acc k : Nat)
    (l' : CacheLine) (h : (updateLru lines acc)[k]? = some l') :
    ∃ l : CacheLine, lines[k]? = some l ∧ l'.valid = l.valid ∧
      l'.tag = l.tag ∧ l'.data = l.data := by
  rw [updateLru_getElem?] at h
  rcases hl : lines[k]? with _ | l0
  · rw [hl] at h
    simp at h
  · rw [hl] at h
    simp only [Option.map_some', Option.some.injEq] at h
    refine ⟨l0, rfl, ?_⟩
    rw [← h]
    by_cases hv : l0.valid <;> by_cases hk : k = acc <;> simp [hv, hk]

/-- Running the shared miss path when the victim slot exists: one miss is
counted, the victim slot is refilled with a valid line carrying the new
tag, and all other slots keep their validity and tag. -/
theorem readMiss_run (c : Cache) (mem : List Nat) (a t ix off v : Nat)
    (vline : CacheLine)
    (hv : (if c.mapping_type = "fully-assoc" then findLruLine c.lines else ix) = v)
    (hvl : c.lines[v]? = some vline) :
    ∃ (c2 : Cache) (m2 : List Nat) (l2 : CacheLine),
      c.readMiss mem a t ix off = some ((l2.data.drop off).take 4, c2, m2) ∧
      c2.lines[v]? = some l2 ∧ l2.valid = true ∧ l2.tag = Int.ofNat t ∧
      (∀ (k : Nat) (lk' : CacheLine), k ≠ v → c2.lines[k]? = some lk' →
        ∃ lk : CacheLine, c.lines[k]? = some lk ∧ lk'.valid = lk.valid ∧
          lk'.tag = lk.tag) ∧
      c2.mapping_type = c.mapping_type ∧ c2.offset_bits = c.offset_bits ∧
      c2.index_bits = c.index_bits ∧ c2.block_size = c.block_size ∧
      c2.lines.length = c.lines.length ∧
      c2.hits = c.hits ∧ c2.misses = c.misses + 1 := by
  have hvlt : v < c.lines.length := getElem?_some_lt hvl
  unfold Cache.readMiss Cache.handleMiss
  (try dsimp only)
  rw [hv, hvl]
  (try dsimp only)
  by_cases hfa : c.mapping_type = "fully-assoc"
  · rw [if_pos hfa]
    have hset : ∀ nl : CacheLine, (c.lines.set v nl)[v]? = some nl :=
      fun nl => List.getElem?_set_self hvlt
    obtain ⟨l2, hl2, hv2, ht2, hd2⟩ :=
      updateLru_fields _ v v _ (hset
        { valid := true, dirty := false, tag := Int.ofNat t
          data := memRead
            (if (vline.valid && vline.dirty) = true then
              memWrite mem (pyOr (pyShl vline.tag (c.offset_bits + c.index_bits))
                (Int.ofNat (v <<< c.offset_bits))) vline.data
             else mem)
            (a - (a &&& (c.block_size - 1))) c.block_size
          lru_counter := vline.lru_counter })
    rw [hl2]
    refine ⟨_, _, l2, rfl, hl2, by rw [hv2], by rw [ht2], ?_, rfl, rfl, rfl, rfl,
      ?_, rfl, rfl⟩
    · intro k lk' hk hlk'
      obtain ⟨lk0, hlk0, hvv, htt, _⟩ := updateLru_fields_rev _ v k lk' hlk'
      rw [List.getElem?_set_ne (fun he => hk he.symm)] at hlk0
      exact ⟨lk0, hlk0, hvv, htt⟩
    · rw [updateLru_length, List.length_set]
  · rw [if_neg hfa]
    have hset : ∀ nl : CacheLine, (c.lines.set v nl)[v]? = some nl :=
      fun nl => List.getElem?_set_self hvlt
    rw [hset]
    refine ⟨_, _, _, rfl, hset _, rfl, rfl, ?_, rfl, rfl, rfl, rfl, ?_, rfl, rfl⟩
    · intro k lk' hk hlk'
      rw [List.getElem?_set_ne (fun he => hk he.symm)] at hlk'
      exact ⟨lk', hlk', rfl, rfl⟩
    · rw [List.length_set]

/-- A cache whose `_find_line` already resolves the wanted tag serves the
next read of that address as a pure hit: the same bytes come back, `hits`
grows by one, `misses` and the lower level are untouched. -/
theorem second_read_hit (C : Cache) (m : List Nat) (a t ix off j : Nat)
    (l2 : CacheLine)
    (hparts : C.getAddressParts a = (t, ix, off))
    (hfl : C.findLine t ix = some (some (j, l2)))
    (hc : (l2.valid && (l2.tag == Int.ofNat t)) = true) :
    ∃ c3 : Cache, C.read m a = some ((l2.data.drop off).take 4, c3, m) ∧
      c3.hits = C.hits + 1 ∧ c3.misses = C.misses := by
  have hCj : C.lines[j]? = some l2 := by
    rcases findLine_some_some hfl with ⟨_, hi, hl⟩ | ⟨_, hassoc⟩
    · rw [hi]
      exact hl
    · exact (findAssoc_some hassoc).1
  by_cases hfa : C.mapping_type = "fully-assoc"
  · obtain ⟨l3, hl3, hv3, ht3, hd3⟩ := updateLru_fields C.lines j j l2 hCj
    have hl3' : (if C.mapping_type = "fully-assoc" then updateLru C.lines j
        else C.lines)[j]? = some l3 := by
      rw [if_pos hfa]
      exact hl3
    have hrun := read_hit_run C m a t ix off j l2 l3 hparts hfl hc hl3'
    refine ⟨if C.mapping_type = "fully-assoc"
        then { C with hits := C.hits + 1, lines := updateLru C.lines j }
        else { C with hits := C.hits + 1 }, ?_, ?_, ?_⟩
    · rw [hrun, hd3]
    · rw [if_pos hfa]
    · rw [if_pos hfa]
  · have hl3' : (if C.mapping_type = "fully-assoc" then updateLru C.lines j
        else C.lines)[j]? = some l2 := by
      rw [if_neg hfa]
      exact hCj
    have hrun := read_hit_run C m a t ix off j l2 l2 hparts hfl hc hl3'
    refine ⟨if C.mapping_type = "fully-assoc"
        then { C with hits := C.hits + 1, lines := updateLru C.lines j }
        else { C with hits := C.hits + 1 }, ?_, ?_, ?_⟩
    · rw [hrun]
    · rw [if_neg hfa]
    · rw [if_neg hfa]

/-- C3 amended.  Whenever `read(A)` succeeds, an immediately following
`read(A)` succeeds with the *same* 4 bytes, always hits (one more hit, no
new miss, no lower-level traffic), and across the two calls `hits + misses`
grows by exactly two with `misses` growing by at most one (only the first
call may miss).  [The original "increments hits by exactly one" is false:
when the first call already hits, the pair adds two hits — see the
counterexample.] -/
theorem read_read_second_always_hits (c : Cache) (mem : List Nat) (a : Nat)
    (b1 : List Nat) (c1 : Cache) (m1 : List Nat)
    (h : c.read mem a = some (b1, c1, m1)) :
    ∃ c2 : Cache, c1.read m1 a = some (b1, c2, m1) ∧
      c2.hits = c1.hits + 1 ∧ c2.misses = c1.misses ∧
      c1.hits + c1.misses = c.hits + c.misses + 1 ∧
      c.misses ≤ c1.misses ∧ c1.misses ≤ c.misses + 1 := by
  have horig := h
  obtain ⟨t, ix, off, hparts⟩ : ∃ t ix off, c.getAddressParts a = (t, ix, off) :=
    ⟨_, _, _, rfl⟩
  unfold Cache.read at h
  rw [hparts] at h
  dsimp only at h
  rcases hfo : c.findLine t ix with _ | fo
  · rw [hfo] at h
    exact Option.noConfusion h
  rw [hfo] at h
  rcases fo with _ | ⟨i, l⟩
  · -- the scan found nothing: a fully-associative-style miss
    dsimp only at h
    obtain ⟨hnd, hnone⟩ := findLine_some_none hfo
    set v := if c.mapping_type = "fully-assoc" then findLruLine c.lines else ix
      with hvdef
    rcases hvl : c.lines[v]? with _ | vline
    · exfalso
      have hfail : c.readMiss mem a t ix off = none := by
        unfold Cache.readMiss Cache.handleMiss
        (try dsimp only)
        rw [← hvdef, hvl]
      rw [hfail] at h
      exact Option.noConfusion h
    · obtain ⟨c2m, m2, l2, hrm, hl2v, hval2, htag2, hothers, hmt2, ho2, hi2, _,
        _, hh2, hm2⟩ := readMiss_run c mem a t ix off v vline hvdef.symm hvl
      rw [hrm] at h
      simp only [Option.some.injEq, Prod.mk.injEq] at h
      obtain ⟨hb, hcc, hm⟩ := h
      subst hb
      subst hcc
      subst hm
      have hparts2 : c2m.getAddressParts a = (t, ix, off) :=
        (getAddressParts_congr c c2m hmt2 ho2 hi2 a).trans hparts
      have hc2 : (l2.valid && (l2.tag == Int.ofNat t)) = true := by
        rw [hval2, htag2]
        simp
      have hd2 : ¬ c2m.mapping_type = "direct" := by
        rw [hmt2]
        exact hnd
      have hassoc2 : findAssoc c2m.lines (Int.ofNat t) = some (v, l2) := by
        apply findAssoc_of _ _ v l2 hl2v hc2
        intro k lk hk hlk
        obtain ⟨lk0, hlk0, hvv, htt⟩ := hothers k lk (by omega) hlk
        have hfk := findAssoc_none hnone k lk0 hlk0
        rw [hvv, htt]
        exact hfk
      have hfl2 : c2m.findLine t ix = some (some (v, l2)) :=
        (findLine_assoc c2m t ix hd2).trans (congrArg some hassoc2)
      obtain ⟨c3, hread2, hh3, hm3⟩ :=
        second_read_hit c2m m2 a t ix off v l2 hparts2 hfl2 hc2
      exact ⟨c3, hread2, hh3, hm3, by omega, by omega, by omega⟩
  · -- a candidate line was found
    dsimp only at h
    by_cases hcond : (l.valid && (l.tag == Int.ofNat t)) = true
    · -- first read hits
      have hli : c.lines[i]? = some l := by
        rcases findLine_some_some hfo with ⟨_, hi, hl⟩ | ⟨_, hassoc⟩
        · rw [hi]
          exact hl
        · exact (findAssoc_some hassoc).1
      by_cases hfa : c.mapping_type = "fully-assoc"
      · -- LRU update applied; counters: hits + 1
        obtain ⟨l2, hl2, hv2, ht2, hd2⟩ := updateLru_fields c.lines i i l hli
        have hl2' : (if c.mapping_type = "fully-assoc" then updateLru c.lines i
            else c.lines)[i]? = some l2 := by
          rw [if_pos hfa]
          exact hl2
        have hrun := read_hit_run c mem a t ix off i l l2 hparts hfo hcond hl2'
        rw [hrun] at horig
        simp only [Option.some.injEq, Prod.mk.injEq] at horig
        obtain ⟨hb, hcc, hm⟩ := horig
        subst hb
        subst hm
        rw [if_pos hfa] at hcc
        subst hcc
        have hnd : ¬ c.mapping_type = "direct" := by
          rw [hfa]
          decide
        have hassoc0 : findAssoc c.lines (Int.ofNat t) = some (i, l) := by
          rcases findLine_some_some hfo with ⟨hdd, _, _⟩ | ⟨_, ha⟩
          · exact absurd hdd hnd
          · exact ha
        obtain ⟨-, -, hpre0⟩ := findAssoc_some hassoc0
        have hc2 : (l2.valid && (l2.tag == Int.ofNat t)) = true := by
          rw [hv2, ht2]
          exact hcond
        have hassoc2 : findAssoc (updateLru c.lines i) (Int.ofNat t) =
            some (i, l2) := by
          apply findAssoc_of _ _ i l2 hl2 hc2
          intro k lk hk hlk
          obtain ⟨lk0, hlk0, hvv, htt, _⟩ := updateLru_fields_rev c.lines i k lk hlk
          have hfk := hpre0 k lk0 hk hlk0
          rw [hvv, htt]
          exact hfk
        have hfl2 : ({ c with hits := c.hits + 1, lines := updateLru c.lines i } :
            Cache).findLine t ix = some (some (i, l2)) :=
          (findLine_assoc { c with hits := c.hits + 1, lines := updateLru c.lines i }
            t ix hnd).trans (congrArg some hassoc2)
        obtain ⟨c3, hread2, hh3, hm3⟩ :=
          second_read_hit { c with hits := c.hits + 1, lines := updateLru c.lines i }
            mem a t ix off i l2 hparts hfl2 hc2
        have e1 : ({ c with hits := c.hits + 1, lines := updateLru c.lines i } :
            Cache).hits = c.hits + 1 := rfl
        have e2 : ({ c with hits := c.hits + 1, lines := updateLru c.lines i } :
            Cache).misses = c.misses := rfl
        exact ⟨c3, hread2, hh3, hm3, by omega, by omega, by omega⟩
      · -- no LRU bookkeeping; lines unchanged
        have hl2' : (if c.mapping_type = "fully-assoc" then updateLru c.lines i
            else c.lines)[i]? = some l := by
          rw [if_neg hfa]
          exact hli
        have hrun := read_hit_run c mem a t ix off i l l hparts hfo hcond hl2'
        rw [hrun] at horig
        simp only [Option.some.injEq, Prod.mk.injEq] at horig
        obtain ⟨hb, hcc, hm⟩ := horig
        subst hb
        subst hm
        rw [if_neg hfa] at hcc
        subst hcc
        have hfl2 : ({ c with hits := c.hits + 1 } : Cache).findLine t ix =
            some (some (i, l)) := hfo
        obtain ⟨c3, hread2, hh3, hm3⟩ :=
          second_read_hit { c with hits := c.hits + 1 } mem a t ix off i l
            hparts hfl2 hcond
        have e1 : ({ c with hits := c.hits + 1 } : Cache).hits = c.hits + 1 := rfl
        have e2 : ({ c with hits := c.hits + 1 } : Cache).misses = c.misses := rfl
        exact ⟨c3, hread2, hh3, hm3, by omega, by omega, by omega⟩
    · -- candidate found but stale: a direct-mapped miss
      rw [if_neg hcond] at h
      have hd : c.mapping_type = "direct" := by
        rcases findLine_some_some hfo with ⟨hdd, _, _⟩ | ⟨_, hassoc⟩
        · exact hdd
        · exact absurd (findAssoc_some hassoc).2.1 hcond
      have hnfa : ¬ c.mapping_type = "fully-assoc" := by
        rw [hd]
        decide
      obtain ⟨-, hiix, hlix⟩ :
          c.mapping_type = "direct" ∧ i = ix ∧ c.lines[ix]? = some l := by
        rcases findLine_some_some hfo with hleft | ⟨hdd, _⟩
        · exact hleft
        · exact absurd hd hdd
      obtain ⟨c2m, m2, l2, hrm, hl2v, hval2, htag2, _, hmt2, ho2, hi2, _, _,
          hh2, hm2⟩ := readMiss_run c mem a t ix off ix l (if_neg hnfa) hlix
      rw [hrm] at h
      simp only [Option.some.injEq, Prod.mk.injEq] at h
      obtain ⟨hb, hcc, hm⟩ := h
      subst hb
      subst hcc
      subst hm
      have hparts2 : c2m.getAddressParts a = (t, ix, off) :=
        (getAddressParts_congr c c2m hmt2 ho2 hi2 a).trans hparts
      have hc2 : (l2.valid && (l2.tag == Int.ofNat t)) = true := by
        rw [hval2, htag2]
        simp
      have hfl2 : c2m.findLine t ix = some (some (ix, l2)) :=
        findLine_direct c2m t ix (hmt2.trans hd) l2 hl2v
      obtain ⟨c3, hread2, hh3, hm3⟩ :=
        second_read_hit c2m m2 a t ix off ix l2 hparts2 hfl2 hc2
      exact ⟨c3, hread2, hh3, hm3, by omega, by omega, by omega⟩

/-- A one-line direct-mapped cache over 64 bytes of zeroed memory. -/
def c3Mem : List Nat := List.replicate 64 0

def c3Direct : Cache := Cache.initBytes "D1" 16 16 "direct"

/-- Counterexample to C3 as stated: starting from the state reached after
one `read(0)` (hits = 0, misses = 1), the pair `read(0); read(0)` raises
`hits` to 2 — the pair increments `hits` by *two*, not "by exactly one",
because the first call of the pair already hits. -/
theorem read_read_double_hit_counterexample :
    ((c3Direct.read c3Mem 0).map (fun p => (p.2.1.hits, p.2.1.misses))) =
      some (0, 1) ∧
    ((((c3Direct.read c3Mem 0).bind (fun p => p.2.1.read p.2.2 0)).bind
        (fun p => p.2.1.read p.2.2 0)).map
      (fun p => (p.2.1.hits, p.2.1.misses))) = some (2, 1) := by
  decide

/-- The cache and lower level reached after the first `read(0)`. -/
def c3AfterFirst : Cache × List Nat :=
  match c3Direct.read c3Mem 0 with
  | some (_, c1, m1) => (c1, m1)
  | none => (c3Direct, c3Mem)

/-- Witness for the amended C3 at a concrete first read. -/
theorem read_read_second_always_hits_witness :
    c3Direct.read c3Mem 0 = some ([0, 0, 0, 0], c3AfterFirst.1, c3AfterFirst.2) ∧
    (∃ c2 : Cache,
      (c3AfterFirst.1).read c3AfterFirst.2 0 =
        some ([0, 0, 0, 0], c2, c3AfterFirst.2) ∧
      c2.hits = c3AfterFirst.1.hits + 1 ∧ c2.misses = c3AfterFirst.1.misses ∧
      c3AfterFirst.1.hits + c3AfterFirst.1.misses =
        c3Direct.hits + c3Direct.misses + 1 ∧
      c3Direct.misses ≤ c3AfterFirst.1.misses ∧
      c3AfterFirst.1.misses ≤ c3Direct.misses + 1) :=
  ⟨by decide,
   read_read_second_always_hits c3Direct c3Mem 0 [0, 0, 0, 0] c3AfterFirst.1
     c3AfterFirst.2 (by decide)⟩
